import Mathlib

/-!
Verification of the dynamic protobuf message engine
(`src/protobuf/src/reflect/dynamic/mod.rs` of MaterializeInc/rust-protobuf).

The file embeds the data model (`DynamicFieldValue`, `DynamicMessage`), the
reflection operations (`set_field`, `clear_field`, `set_fields_default`, ...),
the decoder (`merge_from`), the encoder (`write_to_with_cached_sizes`), the
sizer (`compute_size`) and `is_initialized` as executable Lean functions.

Bytes are modelled as natural numbers (< 256 on every stream the theorems
build), streams as lists of bytes consumed from the front.  The low-level
coded-stream primitives (`read_raw_varint64`, `read_int32`, `tag_size`,
`write_message_dyn`, packed readers, ...) are not part of the source file
under verification; they are modelled from the specification's description of
the wire format and of the consumed interfaces (spec sections 4.4, 4.5 and 6):
varints are little-endian base-128, fixed-width values are little-endian
4/8-byte blocks, `int32`/`int64`/enums travel as sign-extended 64-bit varints,
`sint32`/`sint64` as zigzag varints, strings/bytes as length-delimited blocks.
Recursion in the interpreter functions is by explicit fuel; the exported
entry points instantiate the fuel with a bound that is large enough for every
input the theorems mention (each loop iteration consumes at least one byte).

Rust panics (`expect`, `unimplemented!`, `try_into().unwrap()`, slice-index
panics, failed downcasts) are modelled as an explicit `panicked` outcome,
distinct from returned `ProtobufError`s, which are modelled as `err`.
-/

namespace DynProto

/-- Protocol buffers wire types, as in `wire_format::WireType`. -/
inductive WireType where
  | varint
  | fixed64
  | lengthDelimited
  | startGroup
  | endGroup
  | fixed32
deriving DecidableEq

/-- Numeric value of a wire type, as used in a tag. -/
def wtVal : WireType → Nat
  | .varint => 0
  | .fixed64 => 1
  | .lengthDelimited => 2
  | .startGroup => 3
  | .endGroup => 4
  | .fixed32 => 5

/-- Wire type of a tag's low three bits; `none` for the invalid values 6, 7. -/
def wtOfNat : Nat → Option WireType
  | 0 => some .varint
  | 1 => some .fixed64
  | 2 => some .lengthDelimited
  | 3 => some .startGroup
  | 4 => some .endGroup
  | 5 => some .fixed32
  | _ => none

/-- Modelled from the spec: little-endian base-128 varint encoding of a
natural number (at most 10 groups, enough for any 64-bit value). -/
def varintEncAux : Nat → Nat → List Nat
  | 0, n => [n % 128]
  | fuel + 1, n => if n < 128 then [n] else (n % 128 + 128) :: varintEncAux fuel (n / 128)

/-- Varint encoding of a (64-bit) natural number. -/
def varintEnc (n : Nat) : List Nat := varintEncAux 9 n

/-- Length of the varint encoding; this is the spec's "varint-encoded value
size" used by the size helpers `value_size` and `compute_raw_varint32_size`. -/
def varintLen (n : Nat) : Nat := (varintEnc n).length

/-- Modelled from the spec: varint reader (`read_raw_varint64` of the coded
input stream).  Reads up to 10 bytes, little-endian base-128; the result is
truncated to 64 bits by the caller-facing wrapper. -/
def readVarintAux : Nat → List Nat → Option (Nat × List Nat)
  | _, [] => none
  | 0, _ => none
  | fuel + 1, b :: rest =>
    if b < 128 then some (b, rest)
    else match readVarintAux fuel rest with
      | some (v, rest') => some (b % 128 + 128 * v, rest')
      | none => none

/-- Modelled from the spec: `read_raw_varint64`. -/
def readVarint64 (bs : List Nat) : Option (Nat × List Nat) :=
  match readVarintAux 10 bs with
  | some (v, rest) => some (v % 2 ^ 64, rest)
  | none => none

/-- Modelled from the spec: `read_raw_varint32` (64-bit varint truncated). -/
def readVarint32 (bs : List Nat) : Option (Nat × List Nat) :=
  match readVarint64 bs with
  | some (v, rest) => some (v % 2 ^ 32, rest)
  | none => none

/-- Little-endian fixed-width encoding on `k` bytes. -/
def leEnc : Nat → Nat → List Nat
  | 0, _ => []
  | k + 1, v => v % 256 :: leEnc k (v / 256)

/-- Little-endian fixed-width reader on `k` bytes. -/
def readLE : Nat → List Nat → Option (Nat × List Nat)
  | 0, bs => some (0, bs)
  | _ + 1, [] => none
  | k + 1, b :: rest =>
    match readLE k rest with
    | some (v, rest') => some (b % 256 + 256 * v, rest')
    | none => none

/-- Reinterpret a 32-bit pattern as a signed `i32`. -/
def toI32 (bits : Nat) : Int :=
  let w : Nat := bits % 2 ^ 32
  if w < 2 ^ 31 then (w : Int) else (w : Int) - 2 ^ 32

/-- Reinterpret a 64-bit pattern as a signed `i64`. -/
def toI64 (bits : Nat) : Int :=
  let w : Nat := bits % 2 ^ 64
  if w < 2 ^ 63 then (w : Int) else (w : Int) - 2 ^ 64

/-- Two's-complement 64-bit pattern of an integer (`v as u64` in Rust). -/
def bits64 (v : Int) : Nat := (v % ((2 : Int) ^ 64)).toNat

/-- Two's-complement 32-bit pattern of an integer (`v as u32` in Rust). -/
def bits32 (v : Int) : Nat := (v % ((2 : Int) ^ 32)).toNat

/-- Zigzag encoding of a 32-bit integer. -/
def zigzag32 (v : Int) : Nat := if 0 ≤ v then (2 * v).toNat else (-2 * v - 1).toNat

/-- Zigzag encoding of a 64-bit integer. -/
def zigzag64 (v : Int) : Nat := if 0 ≤ v then (2 * v).toNat else (-2 * v - 1).toNat

/-- Zigzag decoding. -/
def unzigzag (u : Nat) : Int :=
  if u % 2 = 0 then ((u / 2 : Nat) : Int) else -(((u + 1) / 2 : Nat) : Int)

/-- Tag encoding: varint of `(field_number << 3) | wire_type`. -/
def tagEnc (num : Nat) (wt : WireType) : List Nat := varintEnc (8 * num + wtVal wt)

/-- Modelled from the spec: `tag_size` — the varint size of the shifted field
number (the wire-type bits never change the length). -/
def tagSize (num : Nat) : Nat := varintLen (8 * num)

/-- Modelled from the spec: `read_tag_unpack`.  Reads a varint32; the low
three bits are the wire type (6 and 7 are invalid), the rest is the field
number (0 is invalid). -/
def readTag (bs : List Nat) : Option ((Nat × WireType) × List Nat) :=
  match readVarint32 bs with
  | none => none
  | some (v, rest) =>
    match wtOfNat (v % 8) with
    | none => none
    | some wt => if v / 8 = 0 then none else some ((v / 8, wt), rest)

/-- Field types of `descriptor::field_descriptor_proto::Type`. -/
inductive PType where
  | tDouble | tFloat | tInt64 | tUint64 | tInt32 | tFixed64 | tFixed32 | tBool
  | tString | tGroup | tMessage | tBytes | tUint32 | tEnum | tSfixed32
  | tSfixed64 | tSint32 | tSint64
deriving DecidableEq

mutual
/-- Runtime type of a field value (`RuntimeTypeBox`).  An enum descriptor is
modelled as the list of the numeric values of its members, in declaration
order (the engine consumes it only through `EnumValueDescriptor`). -/
inductive RuntimeTypeBox where
  | i32
  | i64
  | u32
  | u64
  | f32
  | f64
  | boolTy
  | stringTy
  | vecU8
  | enumTy (ed : List Int)
  | messageTy (md : MessageDescriptor)

/-- Shape of a field (`RuntimeFieldType`). -/
inductive RuntimeFieldType where
  | Singular (t : RuntimeTypeBox)
  | Repeated (t : RuntimeTypeBox)
  | Map (k v : RuntimeTypeBox)

/-- Field descriptor: field number, proto type, runtime shape, and the
identifier of the containing oneof group if any.  The field's `index` is its
position in the message descriptor's field list (the engine's standing
invariant relating `descriptor.fields()` order and `field.index`). -/
inductive FieldDescriptor where
  | mk (number : Nat) (ptype : PType) (rft : RuntimeFieldType) (oneof : Option Nat)

/-- Message descriptor: the file's syntax string and the fields in
declaration order. -/
inductive MessageDescriptor where
  | mk (protoSyn : String) (fields : List FieldDescriptor)
end

/-- Field number of a field descriptor. -/
def fdNumber : FieldDescriptor → Nat
  | .mk n _ _ _ => n

/-- Proto type of a field descriptor. -/
def fdType : FieldDescriptor → PType
  | .mk _ t _ _ => t

/-- Runtime shape of a field descriptor (`runtime_field_type`). -/
def fdRft : FieldDescriptor → RuntimeFieldType
  | .mk _ _ r _ => r

/-- Containing oneof group of a field descriptor (`containing_oneof`). -/
def fdOneof : FieldDescriptor → Option Nat
  | .mk _ _ _ o => o

/-- Fields of a message descriptor (`descriptor.fields()`). -/
def mdFields : MessageDescriptor → List FieldDescriptor
  | .mk _ fs => fs

/-- Syntax string of the descriptor's file (`file_descriptor_proto().get_syntax()`). -/
def mdSyn : MessageDescriptor → String
  | .mk s _ => s

mutual
/-- A reflective value (`ReflectValueBox`).  Floats are carried as their IEEE
bit patterns (the engine never computes with them, it only moves and compares
them); strings are carried as their UTF-8 bytes.  An enum value
(`EnumValueDescriptor`) carries its enum's value list and the `usize` index
the engine constructed it with. -/
inductive ReflectValueBox where
  | i32V (v : Int)
  | i64V (v : Int)
  | u32V (v : Nat)
  | u64V (v : Nat)
  | f32V (bits : Nat)
  | f64V (bits : Nat)
  | boolV (b : Bool)
  | stringV (s : List Nat)
  | bytesV (s : List Nat)
  | enumV (ed : List Int) (idx : Nat)
  | messageV (m : DynamicMessage)

/-- Per-field storage cell (`DynamicFieldValue`).  A singular cell keeps its
declared runtime type next to the optional value (`DynamicOptional`); a
repeated cell keeps the element type and the elements (`DynamicRepeated`);
map contents are never read by the engine in this revision (every map
operation is skipped or panics), so only the declared key/value types are
kept (`DynamicMap`). -/
inductive DynamicFieldValue where
  | Singular (t : RuntimeTypeBox) (v : Option ReflectValueBox)
  | Repeated (t : RuntimeTypeBox) (vs : List ReflectValueBox)
  | MapCell (k v : RuntimeTypeBox)

/-- The dynamic message: descriptor, field cells (empty while lazy),
unknown fields and cached size. -/
inductive DynamicMessage where
  | mk (descriptor : MessageDescriptor) (fields : List DynamicFieldValue)
       (unknownFields : List (Nat × Nat)) (cachedSize : Nat)
end

/-- Descriptor of a message. -/
def descOf : DynamicMessage → MessageDescriptor
  | .mk d _ _ _ => d

/-- Field cells of a message. -/
def fieldsOf : DynamicMessage → List DynamicFieldValue
  | .mk _ f _ _ => f

/-- Unknown fields of a message. -/
def unknownOf : DynamicMessage → List (Nat × Nat)
  | .mk _ _ u _ => u

/-- Cached size of a message (`get_cached_size`, source lines 654-656). -/
def getCachedSize : DynamicMessage → Nat
  | .mk _ _ _ c => c

/-- Replace the cell at index `i` (in-place mutation of `self.fields[i]`). -/
def setCell (m : DynamicMessage) (i : Nat) (c : DynamicFieldValue) : DynamicMessage :=
  match m with
  | .mk d fs u cs => .mk d (fs.set i c) u cs

/-- Source `DynamicFieldValue::default_for_field` (lines 64-70): the empty
cell demanded by the field's shape. -/
def defaultForField (fd : FieldDescriptor) : DynamicFieldValue :=
  match fdRft fd with
  | .Singular s => .Singular s none
  | .Repeated r => .Repeated r []
  | .Map k v => .MapCell k v

/-- Source `DynamicMessage::new` (lines 129-136) and
`MessageDescriptor::new_instance`: a lazy message with no cells. -/
def newInstance (d : MessageDescriptor) : DynamicMessage := .mk d [] [] 0

/-- Source `DynamicMessage::init_fields` (lines 138-146): materialize the
cell vector from the descriptor if it is still empty. -/
def initFields (m : DynamicMessage) : DynamicMessage :=
  match m with
  | .mk d fs u cs =>
    if fs.isEmpty then .mk d ((mdFields d).map defaultForField) u cs else .mk d fs u cs

/-- Source `DynamicFieldValue::clear` (lines 54-60): reset a cell, keeping
its declared types. -/
def clearCell : DynamicFieldValue → DynamicFieldValue
  | .Singular t _ => .Singular t none
  | .Repeated t _ => .Repeated t []
  | .MapCell k v => .MapCell k v

/-- Source `DynamicMessage::clear_field` (lines 157-164): no-op on a lazy
message, otherwise clear the indexed cell.  `none` models the Rust index
panic when the cell vector is non-empty but shorter than the index. -/
def clearField (m : DynamicMessage) (i : Nat) : Option DynamicMessage :=
  if (fieldsOf m).isEmpty then some m
  else match (fieldsOf m)[i]? with
    | some c => some (setCell m i (clearCell c))
    | none => none

/-- Source `DynamicMessage::clear_oneof_group_fields_except` (lines 202-211):
clear every other member of the field's oneof group.  The walk is over the
descriptor's fields in order, clearing those that share the oneof id. -/
def clearOneofExceptAux (m : DynamicMessage) (g : Nat) (keep : Nat) :
    List FieldDescriptor → Nat → Option DynamicMessage
  | [], _ => some m
  | fd :: rest, j =>
    if j ≠ keep ∧ fdOneof fd = some g then
      match clearField m j with
      | some m' => clearOneofExceptAux m' g keep rest (j + 1)
      | none => none
    else clearOneofExceptAux m g keep rest (j + 1)

/-- Clear the oneof siblings of field `i` (no-op when the field is not in a
oneof group). -/
def clearOneofExcept (m : DynamicMessage) (i : Nat) : Option DynamicMessage :=
  match (mdFields (descOf m))[i]? with
  | none => none
  | some fd =>
    match fdOneof fd with
    | none => some m
    | some g => clearOneofExceptAux m g i (mdFields (descOf m)) 0

/-- Source `DynamicMessage::set_field` (lines 250-258): materialize, then
assign into the singular cell at the field's index.  Note: the source does
NOT clear the other members of the field's oneof group here (the body only
carries a `TODO: reset oneof group fields` comment).  `none` models the
panics (non-singular cell, index out of bounds). -/
def setField (m : DynamicMessage) (i : Nat) (v : ReflectValueBox) : Option DynamicMessage :=
  let m₁ := initFields m
  match (fieldsOf m₁)[i]? with
  | some (.Singular t _) => some (setCell m₁ i (.Singular t (some v)))
  | some _ => none
  | none => none

/-- Source `DynamicFieldValue::set_default_for_merge` (lines 73-117): for a
singular field, overwrite the slot with the proto3 default of its runtime
type.  The `RuntimeTypeBox::Message` case falls into the source's `_ => {}`
catch-all and leaves the slot untouched; non-singular shapes are untouched.
`none` models the `assert!` panic when the shape says singular but the cell
is not. -/
def setDefaultForMerge (fd : FieldDescriptor) (c : DynamicFieldValue) :
    Option DynamicFieldValue :=
  match fdRft fd with
  | .Singular rtb =>
    match c with
    | .Singular t v =>
      match rtb with
      | .i32 => some (.Singular t (some (.i32V 0)))
      | .i64 => some (.Singular t (some (.i64V 0)))
      | .u32 => some (.Singular t (some (.u32V 0)))
      | .u64 => some (.Singular t (some (.u64V 0)))
      | .f32 => some (.Singular t (some (.f32V 0)))
      | .f64 => some (.Singular t (some (.f64V 0)))
      | .boolTy => some (.Singular t (some (.boolV false)))
      | .stringTy => some (.Singular t (some (.stringV [])))
      | .vecU8 => some (.Singular t (some (.bytesV [])))
      | .enumTy ed => some (.Singular t (some (.enumV ed 0)))
      | .messageTy _ => some (.Singular t v)
    | _ => none
  | _ => some c

/-- Walk of `set_fields_default`'s loop: apply `set_default_for_merge` to the
cell at each field's index, in descriptor order. -/
def setFieldsDefaultAux : List FieldDescriptor → List DynamicFieldValue → Option (List DynamicFieldValue)
  | [], cells => some cells
  | fd :: rest, cells =>
    match cells with
    | [] => none
    | c :: cs =>
      match setDefaultForMerge fd c with
      | some c' =>
        match setFieldsDefaultAux rest cs with
        | some cs' => some (c' :: cs')
        | none => none
      | none => none

/-- Source `DynamicMessage::set_fields_default` (lines 189-200): materialize;
if the syntax is not "proto3" stop (proto2 leaves the cells as they are);
otherwise set every singular field to its default via
`set_default_for_merge`.  The indexed loop `self.fields[field_desc.index]`
is rendered as a lockstep walk, which agrees with it because materialization
just produced one cell per descriptor field; `none` models the index panic
when a non-empty cell vector does not have one cell per field. -/
def setFieldsDefault (m : DynamicMessage) : Option DynamicMessage :=
  let m₁ := initFields m
  if mdSyn (descOf m₁) ≠ "proto3" then some m₁
  else if (fieldsOf m₁).length = (mdFields (descOf m₁)).length then
    match setFieldsDefaultAux (mdFields (descOf m₁)) (fieldsOf m₁) with
    | some cells => some (.mk (descOf m₁) cells (unknownOf m₁) (getCachedSize m₁))
    | none => none
  else none

/-- Source `descriptor.get_field_by_number`: the first field with the given
number, together with its index. -/
def findFieldAux : List FieldDescriptor → Nat → Nat → Option (Nat × FieldDescriptor)
  | [], _, _ => none
  | fd :: rest, num, i =>
    if fdNumber fd = num then some (i, fd) else findFieldAux rest num (i + 1)

/-- Look a field up by number in a descriptor. -/
def findFieldByNumber (d : MessageDescriptor) (num : Nat) : Option (Nat × FieldDescriptor) :=
  findFieldAux (mdFields d) num 0

/-- Modelled from the spec: the per-scalar readers of the coded input
stream (`read_double`, `read_int32`, ...), each returning the decoded value
boxed, together with the remaining bytes.  `int32`/`int64` decode a 64-bit
varint and reinterpret (`v as i32` / `v as i64`); `uint32` truncates;
`sint32`/`sint64` un-zigzag; fixed-width types read little-endian blocks;
`bool` is a varint compared against zero; strings and bytes are
length-delimited.  The proto types `group`, `message` and `enum` have no
scalar reader (the decoder handles them separately). -/
def readScalar : PType → List Nat → Option (ReflectValueBox × List Nat)
  | .tDouble, bs => (readLE 8 bs).map fun (v, r) => (.f64V v, r)
  | .tFloat, bs => (readLE 4 bs).map fun (v, r) => (.f32V v, r)
  | .tInt64, bs => (readVarint64 bs).map fun (v, r) => (.i64V (toI64 v), r)
  | .tUint64, bs => (readVarint64 bs).map fun (v, r) => (.u64V v, r)
  | .tInt32, bs => (readVarint64 bs).map fun (v, r) => (.i32V (toI32 v), r)
  | .tFixed64, bs => (readLE 8 bs).map fun (v, r) => (.u64V v, r)
  | .tFixed32, bs => (readLE 4 bs).map fun (v, r) => (.u32V v, r)
  | .tBool, bs => (readVarint32 bs).map fun (v, r) => (.boolV (v ≠ 0), r)
  | .tString, bs =>
    match readVarint32 bs with
    | some (len, r) => if len ≤ r.length then some (.stringV (r.take len), r.drop len) else none
    | none => none
  | .tBytes, bs =>
    match readVarint32 bs with
    | some (len, r) => if len ≤ r.length then some (.bytesV (r.take len), r.drop len) else none
    | none => none
  | .tUint32, bs => (readVarint32 bs).map fun (v, r) => (.u32V v, r)
  | .tSfixed32, bs => (readLE 4 bs).map fun (v, r) => (.i32V (toI32 v), r)
  | .tSfixed64, bs => (readLE 8 bs).map fun (v, r) => (.i64V (toI64 v), r)
  | .tSint32, bs => (readVarint32 bs).map fun (v, r) => (.i32V (unzigzag v), r)
  | .tSint64, bs => (readVarint64 bs).map fun (v, r) => (.i64V (unzigzag v), r)
  | .tGroup, _ => none
  | .tMessage, _ => none
  | .tEnum, _ => none

/-- The element loop of a packed reader: decode elements with `rd` until the
delimited region is exhausted.  The fuel is the region length; every element
consumes at least one byte, so the fuel never runs out on the regions the
readers pass in. -/
def packElemsGo (rd : List Nat → Option (ReflectValueBox × List Nat)) :
    Nat → List Nat → Option (List ReflectValueBox)
  | _, [] => some []
  | 0, _ :: _ => none
  | fuel + 1, bs =>
    match rd bs with
    | none => none
    | some (b, bs') =>
      match packElemsGo rd fuel bs' with
      | some rest => some (b :: rest)
      | none => none

/-- Modelled from the spec: the packed repeated readers
(`read_repeated_packed_<scalar>_into`): read a varint length, then decode
elements of the scalar type until the region is exhausted. -/
def readPacked (pt : PType) (bs : List Nat) : Option (List ReflectValueBox × List Nat) :=
  match readVarint64 bs with
  | none => none
  | some (len, r) =>
    if len ≤ r.length then
      match packElemsGo (readScalar pt) len (r.take len) with
      | some elems => some (elems, r.drop len)
      | none => none
    else none

/-- The unpacked wire type of each packable scalar, i.e. the wire type that
the corresponding `merge_from` repeated arm (source lines 363-537) matches
against before reading a single element; `none` for the proto types whose
repeated arms do not dispatch on the wire type (string, bytes, group, enum,
message). -/
def scalarWire : PType → Option WireType
  | .tFloat => some .fixed32
  | .tDouble => some .fixed64
  | .tInt32 => some .varint
  | .tInt64 => some .varint
  | .tUint32 => some .varint
  | .tUint64 => some .varint
  | .tFixed32 => some .fixed32
  | .tFixed64 => some .fixed64
  | .tBool => some .varint
  | .tSfixed32 => some .fixed32
  | .tSfixed64 => some .fixed64
  | .tSint32 => some .varint
  | .tSint64 => some .varint
  | _ => none

/-- Errors returned by the decoder as `ProtobufError` values.  Stream-level
failures that the claims do not need to tell apart (truncated input, invalid
varint, invalid tag) are conflated into `truncated`. -/
inductive WErr where
  | truncated
  | unexpectedWireType (wt : WireType)
  | recursionLimitExceeded
deriving DecidableEq

/-- A coded input stream: remaining bytes plus the recursion counter and its
limit (`incr_recursion` fails once the counter reaches the limit). -/
structure IStream where
  data : List Nat
  depth : Nat
  limit : Nat

/-- Outcome of `merge_from`: normal completion with the merged message, a
returned error, a Rust panic, or interpreter fuel exhaustion (which no
theorem's input reaches). -/
inductive MRes where
  | ok (m : DynamicMessage)
  | err (e : WErr)
  | panicked
  | fuelOut

/-- Source `DynamicMessage::merge_from`, tag loop (lines 302-571).  One fuel
unit is spent per loop iteration and per nested message merge.

Reading guide, arm by arm:
* eof check, `read_tag_unpack`, then `get_field_by_number(..).expect(..)`:
  an unknown field number is a PANIC (`expect`), not a returned error and
  not a skip (lines 306-309).
* Singular fields (lines 312-358): the scalar types read one value with the
  per-type reader — note the source never checks the observed wire type
  here; `TYPE_GROUP` panics `unimplemented!`; `TYPE_MESSAGE` brackets the
  nested merge with `incr_recursion`/`decr_recursion`; `TYPE_ENUM` reads an
  int32 and converts it with `as usize` (a negative number wraps to
  `2^64 + n`).  The value is stored with `set_field` (which does not clear
  oneof siblings).
* Repeated fields (lines 359-566): the thirteen packable scalar arms are
  all the same dispatch — element wire type reads one element, length
  delimited invokes the packed reader, anything else returns
  `unexpected_wire_type` — rendered once below behind `scalarWire`
  (`scalarWire pt = some ewt` exactly for those thirteen arms, so the
  factored dispatch is reached exactly when a source scalar arm is).
  Strings and bytes push one element without a wire check; `TYPE_GROUP`
  panics; `TYPE_ENUM` reads an int32 and `try_into().unwrap()`s it (a
  negative number PANICS, line 547); `TYPE_MESSAGE` merges a nested message
  WITHOUT touching the recursion counter (lines 554-564).
* Map fields (line 567): the arm is empty — the tag is dropped and the loop
  continues at the payload bytes.

`merge_message_dyn` is modelled from the spec: read a varint length, merge
the nested message from exactly those bytes (the pushed limit), continue
after them. -/
def loopF : Nat → DynamicMessage → IStream → MRes
  | 0, _, _ => .fuelOut
  | fuel + 1, m, s =>
    if s.data.isEmpty then .ok m
    else match readTag s.data with
    | none => .err .truncated
    | some ((num, wt), rest) =>
      match findFieldByNumber (descOf m) num with
      | none => .panicked
      | some (i, fd) =>
        match fdRft fd with
        | .Singular rtb =>
          match fdType fd with
          | .tGroup => .panicked
          | .tMessage =>
            match rtb with
            | .messageTy msgDesc =>
              if s.limit ≤ s.depth then .err .recursionLimitExceeded
              else match readVarint64 rest with
                | none => .err .truncated
                | some (len, rest') =>
                  if len ≤ rest'.length then
                    match setFieldsDefault (newInstance msgDesc) with
                    | none => .panicked
                    | some child =>
                      match loopF fuel child ⟨rest'.take len, s.depth + 1, s.limit⟩ with
                      | .ok child' =>
                        match setField m i (.messageV child') with
                        | some m' => loopF fuel m' ⟨rest'.drop len, s.depth, s.limit⟩
                        | none => .panicked
                      | .err e => .err e
                      | .panicked => .panicked
                      | .fuelOut => .fuelOut
                  else .err .truncated
            | _ => .panicked
          | .tEnum =>
            match rtb with
            | .enumTy ed =>
              match readVarint64 rest with
              | none => .err .truncated
              | some (v, rest') =>
                let n : Int := toI32 v
                let idx : Nat := if 0 ≤ n then n.toNat else (2 ^ 64 + n).toNat
                match setField m i (.enumV ed idx) with
                | some m' => loopF fuel m' ⟨rest', s.depth, s.limit⟩
                | none => .panicked
            | _ => .panicked
          | p =>
            match readScalar p rest with
            | none => .err .truncated
            | some (box, rest') =>
              match setField m i box with
              | some m' => loopF fuel m' ⟨rest', s.depth, s.limit⟩
              | none => .panicked
        | .Repeated rtb =>
          let m₁ := initFields m
          match (fieldsOf m₁)[i]? with
          | some (.Repeated t vs) =>
            match scalarWire (fdType fd) with
            | some ewt =>
              if wt = ewt then
                match readScalar (fdType fd) rest with
                | none => .err .truncated
                | some (box, rest') =>
                  loopF fuel (setCell m₁ i (.Repeated t (vs ++ [box]))) ⟨rest', s.depth, s.limit⟩
              else if wt = .lengthDelimited then
                match readPacked (fdType fd) rest with
                | none => .err .truncated
                | some (boxes, rest') =>
                  loopF fuel (setCell m₁ i (.Repeated t (vs ++ boxes))) ⟨rest', s.depth, s.limit⟩
              else .err (.unexpectedWireType wt)
            | none =>
              match fdType fd with
              | .tString =>
                match readScalar .tString rest with
                | none => .err .truncated
                | some (box, rest') =>
                  loopF fuel (setCell m₁ i (.Repeated t (vs ++ [box]))) ⟨rest', s.depth, s.limit⟩
              | .tBytes =>
                match readScalar .tBytes rest with
                | none => .err .truncated
                | some (box, rest') =>
                  loopF fuel (setCell m₁ i (.Repeated t (vs ++ [box]))) ⟨rest', s.depth, s.limit⟩
              | .tGroup => .panicked
              | .tEnum =>
                match rtb with
                | .enumTy ed =>
                  match readVarint64 rest with
                  | none => .err .truncated
                  | some (v, rest') =>
                    let n : Int := toI32 v
                    if n < 0 then .panicked
                    else loopF fuel (setCell m₁ i (.Repeated t (vs ++ [.enumV ed n.toNat])))
                      ⟨rest', s.depth, s.limit⟩
                | _ => .panicked
              | .tMessage =>
                match rtb with
                | .messageTy msgDesc =>
                  match readVarint64 rest with
                  | none => .err .truncated
                  | some (len, rest') =>
                    if len ≤ rest'.length then
                      match setFieldsDefault (newInstance msgDesc) with
                      | none => .panicked
                      | some child =>
                        match loopF fuel child ⟨rest'.take len, s.depth, s.limit⟩ with
                        | .ok child' =>
                          loopF fuel (setCell m₁ i (.Repeated t (vs ++ [.messageV child'])))
                            ⟨rest'.drop len, s.depth, s.limit⟩
                        | .err e => .err e
                        | .panicked => .panicked
                        | .fuelOut => .fuelOut
                    else .err .truncated
                | _ => .panicked
              | _ => .panicked
          | some _ => .panicked
          | none => .panicked
        | .Map _ _ => loopF fuel m ⟨rest, s.depth, s.limit⟩

/-- Source `DynamicMessage::merge_from` (lines 302-571): set defaults, then
run the tag loop.  The fuel bound `2 * length + 2` covers every input: each
loop iteration consumes at least one byte and each nested merge is preceded
by a consumed tag. -/
def mergeFrom (m : DynamicMessage) (s : IStream) : MRes :=
  match setFieldsDefault m with
  | none => .panicked
  | some m₁ => loopF (2 * s.data.length + 2) m₁ s

/-- Outcome of the encoder, sizer and `is_initialized`: a value, a Rust
panic, or interpreter fuel exhaustion. -/
inductive CRes (α : Type) where
  | ok (a : α)
  | panicked
  | fuelOut
deriving DecidableEq

/-- Map over a `CRes`. -/
def CRes.map (f : α → β) : CRes α → CRes β
  | .ok a => .ok (f a)
  | .panicked => .panicked
  | .fuelOut => .fuelOut

/-- Whether a `CRes` carries a value. -/
def CRes.isOk : CRes α → Bool
  | .ok _ => true
  | _ => false

/-- Modelled from the spec: `EnumValueDescriptor::value()` — the numeric
value of the indexed enum member.  An out-of-range index yields 0 here (the
claims never exercise it, and both the encoder and the sizer go through this
same accessor). -/
def enumValueNum (ed : List Int) (idx : Nat) : Int := ed.getD idx 0

/-- Modelled from the spec: `ReflectValueRef::is_non_zero` — "not the proto3
default for that scalar; for strings/bytes, non-empty; for messages, always
non-zero; for enums, numeric value ≠ 0".  For floats, both IEEE zeros count
as zero. -/
def isNonZero : ReflectValueBox → Bool
  | .i32V v => v ≠ 0
  | .i64V v => v ≠ 0
  | .u32V v => v ≠ 0
  | .u64V v => v ≠ 0
  | .f32V b => ¬(b = 0 ∨ b = 2 ^ 31)
  | .f64V b => ¬(b = 0 ∨ b = 2 ^ 63)
  | .boolV b => b
  | .stringV s => ¬s.isEmpty
  | .bytesV s => ¬s.isEmpty
  | .enumV ed idx => enumValueNum ed idx ≠ 0
  | .messageV _ => true

/-- Source `singular_write_to` (lines 682-758), with the coded output
stream's writers modelled from the spec: every writer emits a tag followed
by the value's payload (varint for the varint family with `int32`/`int64`/
enums sign-extended to 64 bits, zigzag varint for `sint*`, little-endian
blocks for fixed-width types, length-prefixed bytes for strings/bytes).
`write_message_dyn` emits the tag, the child's size as a varint, then the
child's bytes; per the spec the cached child size the encoder assumes is
the child's computed size, so the model takes it from `childSize`.
`panicked` models the `unimplemented!` for groups, the failed downcasts
(`to_u32().unwrap()` on a box of the wrong kind) and the runtime/proto type
mismatch panics. -/
def singularWriteTo (childSize : DynamicMessage → CRes Nat)
    (childWrite : DynamicMessage → CRes (List Nat))
    (pt : PType) (rtb : RuntimeTypeBox) (num : Nat) (v : ReflectValueBox) :
    CRes (List Nat) :=
  match pt with
  | .tEnum =>
    match rtb with
    | .enumTy _ =>
      match v with
      | .enumV ed idx =>
        .ok (tagEnc num .varint ++ varintEnc (bits64 (enumValueNum ed idx)))
      | _ => .panicked
    | _ => .panicked
  | .tMessage =>
    match rtb with
    | .messageTy _ =>
      match v with
      | .messageV child =>
        match childSize child with
        | .ok len =>
          match childWrite child with
          | .ok bs => .ok (tagEnc num .lengthDelimited ++ varintEnc len ++ bs)
          | .panicked => .panicked
          | .fuelOut => .fuelOut
        | .panicked => .panicked
        | .fuelOut => .fuelOut
      | _ => .panicked
    | _ => .panicked
  | .tGroup => .panicked
  | .tUint32 =>
    match v with
    | .u32V x => .ok (tagEnc num .varint ++ varintEnc x)
    | _ => .panicked
  | .tUint64 =>
    match v with
    | .u64V x => .ok (tagEnc num .varint ++ varintEnc x)
    | _ => .panicked
  | .tInt32 =>
    match v with
    | .i32V x => .ok (tagEnc num .varint ++ varintEnc (bits64 x))
    | _ => .panicked
  | .tInt64 =>
    match v with
    | .i64V x => .ok (tagEnc num .varint ++ varintEnc (bits64 x))
    | _ => .panicked
  | .tSint32 =>
    match v with
    | .i32V x => .ok (tagEnc num .varint ++ varintEnc (zigzag32 x))
    | _ => .panicked
  | .tSint64 =>
    match v with
    | .i64V x => .ok (tagEnc num .varint ++ varintEnc (zigzag64 x))
    | _ => .panicked
  | .tFixed32 =>
    match v with
    | .u32V x => .ok (tagEnc num .fixed32 ++ leEnc 4 x)
    | _ => .panicked
  | .tFixed64 =>
    match v with
    | .u64V x => .ok (tagEnc num .fixed64 ++ leEnc 8 x)
    | _ => .panicked
  | .tSfixed64 =>
    match v with
    | .i64V x => .ok (tagEnc num .fixed64 ++ leEnc 8 (bits64 x))
    | _ => .panicked
  | .tSfixed32 =>
    match v with
    | .i32V x => .ok (tagEnc num .fixed32 ++ leEnc 4 (bits32 x))
    | _ => .panicked
  | .tBool =>
    match v with
    | .boolV b => .ok (tagEnc num .varint ++ varintEnc (if b then 1 else 0))
    | _ => .panicked
  | .tString =>
    match v with
    | .stringV s => .ok (tagEnc num .lengthDelimited ++ varintEnc s.length ++ s)
    | _ => .panicked
  | .tBytes =>
    match v with
    | .bytesV s => .ok (tagEnc num .lengthDelimited ++ varintEnc s.length ++ s)
    | _ => .panicked
  | .tFloat =>
    match v with
    | .f32V b => .ok (tagEnc num .fixed32 ++ leEnc 4 b)
    | _ => .panicked
  | .tDouble =>
    match v with
    | .f64V b => .ok (tagEnc num .fixed64 ++ leEnc 8 b)
    | _ => .panicked

/-- Source `compute_singular_size` (lines 761-833), with the size helpers
(`value_size`, `value_varint_zigzag_size`, `tag_size`,
`compute_raw_varint32_size`, `string_size`, `bytes_size`) modelled from the
spec as tag size plus the payload's encoded size. -/
def computeSingularSize (childSize : DynamicMessage → CRes Nat)
    (pt : PType) (rtb : RuntimeTypeBox) (num : Nat) (v : ReflectValueBox) :
    CRes Nat :=
  match pt with
  | .tEnum =>
    match rtb with
    | .enumTy _ =>
      match v with
      | .enumV ed idx => .ok (tagSize num + varintLen (bits64 (enumValueNum ed idx)))
      | _ => .panicked
    | _ => .panicked
  | .tMessage =>
    match rtb with
    | .messageTy _ =>
      match v with
      | .messageV child =>
        match childSize child with
        | .ok len => .ok (tagSize num + varintLen len + len)
        | .panicked => .panicked
        | .fuelOut => .fuelOut
      | _ => .panicked
    | _ => .panicked
  | .tGroup => .panicked
  | .tUint32 =>
    match v with
    | .u32V x => .ok (tagSize num + varintLen x)
    | _ => .panicked
  | .tUint64 =>
    match v with
    | .u64V x => .ok (tagSize num + varintLen x)
    | _ => .panicked
  | .tInt32 =>
    match v with
    | .i32V x => .ok (tagSize num + varintLen (bits64 x))
    | _ => .panicked
  | .tInt64 =>
    match v with
    | .i64V x => .ok (tagSize num + varintLen (bits64 x))
    | _ => .panicked
  | .tSint32 =>
    match v with
    | .i32V x => .ok (tagSize num + varintLen (zigzag32 x))
    | _ => .panicked
  | .tSint64 =>
    match v with
    | .i64V x => .ok (tagSize num + varintLen (zigzag64 x))
    | _ => .panicked
  | .tFixed32 =>
    match v with
    | .u32V _ => .ok (tagSize num + 4)
    | _ => .panicked
  | .tFixed64 =>
    match v with
    | .u64V _ => .ok (tagSize num + 8)
    | _ => .panicked
  | .tSfixed32 =>
    match v with
    | .i32V _ => .ok (tagSize num + 4)
    | _ => .panicked
  | .tSfixed64 =>
    match v with
    | .i64V _ => .ok (tagSize num + 8)
    | _ => .panicked
  | .tBool =>
    match v with
    | .boolV b => .ok (tagSize num + varintLen (if b then 1 else 0))
    | _ => .panicked
  | .tString =>
    match v with
    | .stringV s => .ok (tagSize num + varintLen s.length + s.length)
    | _ => .panicked
  | .tBytes =>
    match v with
    | .bytesV s => .ok (tagSize num + varintLen s.length + s.length)
    | _ => .panicked
  | .tFloat =>
    match v with
    | .f32V _ => .ok (tagSize num + 4)
    | _ => .panicked
  | .tDouble =>
    match v with
    | .f64V _ => .ok (tagSize num + 8)
    | _ => .panicked

/-- Size contribution of a repeated field's elements: one tag + payload per
element, in order (source lines 631-643). -/
def sizeRepeated (childSize : DynamicMessage → CRes Nat)
    (pt : PType) (rtb : RuntimeTypeBox) (num : Nat) :
    List ReflectValueBox → CRes Nat
  | [] => .ok 0
  | v :: vs =>
    match computeSingularSize childSize pt rtb num v with
    | .ok n =>
      match sizeRepeated childSize pt rtb num vs with
      | .ok rest => .ok (n + rest)
      | .panicked => .panicked
      | .fuelOut => .fuelOut
    | .panicked => .panicked
    | .fuelOut => .fuelOut

/-- Bytes of a repeated field's elements: one tag + payload per element, in
order (source lines 591-603). -/
def writeRepeated (childSize : DynamicMessage → CRes Nat)
    (childWrite : DynamicMessage → CRes (List Nat))
    (pt : PType) (rtb : RuntimeTypeBox) (num : Nat) :
    List ReflectValueBox → CRes (List Nat)
  | [] => .ok []
  | v :: vs =>
    match singularWriteTo childSize childWrite pt rtb num v with
    | .ok bs =>
      match writeRepeated childSize childWrite pt rtb num vs with
      | .ok rest => .ok (bs ++ rest)
      | .panicked => .panicked
      | .fuelOut => .fuelOut
    | .panicked => .panicked
    | .fuelOut => .fuelOut

/-- The sizer's walk over the descriptor fields (source `compute_size`,
lines 613-652).  For each field, in descriptor order: a set and non-zero
singular value contributes tag + payload; a repeated field contributes each
element; the map arm panics `unimplemented!`.  The cell of field `i` is
`self.fields[i]`; `field_desc.get_singular(self)` on a cell of the wrong
shape is a panic. -/
def sizeFields (childSize : DynamicMessage → CRes Nat)
    (cells : List DynamicFieldValue) :
    List FieldDescriptor → Nat → CRes Nat
  | [], _ => .ok 0
  | fd :: fds, i =>
    match fdRft fd with
    | .Map _ _ => .panicked
    | .Singular rtb =>
      match cells[i]? with
      | some (.Singular _ v) =>
        match v with
        | some box =>
          if isNonZero box then
            match computeSingularSize childSize (fdType fd) rtb (fdNumber fd) box with
            | .ok n =>
              match sizeFields childSize cells fds (i + 1) with
              | .ok rest => .ok (n + rest)
              | .panicked => .panicked
              | .fuelOut => .fuelOut
            | .panicked => .panicked
            | .fuelOut => .fuelOut
          else sizeFields childSize cells fds (i + 1)
        | none => sizeFields childSize cells fds (i + 1)
      | some _ => .panicked
      | none => .panicked
    | .Repeated rtb =>
      match cells[i]? with
      | some (.Repeated _ vs) =>
        match sizeRepeated childSize (fdType fd) rtb (fdNumber fd) vs with
        | .ok n =>
          match sizeFields childSize cells fds (i + 1) with
          | .ok rest => .ok (n + rest)
          | .panicked => .panicked
          | .fuelOut => .fuelOut
        | .panicked => .panicked
        | .fuelOut => .fuelOut
      | some _ => .panicked
      | none => .panicked

/-- The encoder's walk over the descriptor fields (source
`write_to_with_cached_sizes`, lines 573-611), mirroring `sizeFields`. -/
def writeFields (childSize : DynamicMessage → CRes Nat)
    (childWrite : DynamicMessage → CRes (List Nat))
    (cells : List DynamicFieldValue) :
    List FieldDescriptor → Nat → CRes (List Nat)
  | [], _ => .ok []
  | fd :: fds, i =>
    match fdRft fd with
    | .Map _ _ => .panicked
    | .Singular rtb =>
      match cells[i]? with
      | some (.Singular _ v) =>
        match v with
        | some box =>
          if isNonZero box then
            match singularWriteTo childSize childWrite (fdType fd) rtb (fdNumber fd) box with
            | .ok bs =>
              match writeFields childSize childWrite cells fds (i + 1) with
              | .ok rest => .ok (bs ++ rest)
              | .panicked => .panicked
              | .fuelOut => .fuelOut
            | .panicked => .panicked
            | .fuelOut => .fuelOut
          else writeFields childSize childWrite cells fds (i + 1)
        | none => writeFields childSize childWrite cells fds (i + 1)
      | some _ => .panicked
      | none => .panicked
    | .Repeated rtb =>
      match cells[i]? with
      | some (.Repeated _ vs) =>
        match writeRepeated childSize childWrite (fdType fd) rtb (fdNumber fd) vs with
        | .ok bs =>
          match writeFields childSize childWrite cells fds (i + 1) with
          | .ok rest => .ok (bs ++ rest)
          | .panicked => .panicked
          | .fuelOut => .fuelOut
        | .panicked => .panicked
        | .fuelOut => .fuelOut
      | some _ => .panicked
      | none => .panicked

/-- The walk of the sizer and the encoder on a still-lazy message: the
default views (`get_reflect` on an empty cell vector, source lines 148-155)
hold no values, so a singular field is skipped, a repeated field contributes
nothing, and the map arm still panics. -/
def lazyFieldsPanic : List FieldDescriptor → Bool
  | [] => false
  | fd :: fds =>
    match fdRft fd with
    | .Map _ _ => true
    | _ => lazyFieldsPanic fds

/-- Source `DynamicMessage::compute_size` (lines 613-652), with fuel for the
nested-message recursion (`compute_size_dyn` on children). -/
def csF : Nat → DynamicMessage → CRes Nat
  | 0, _ => .fuelOut
  | fuel + 1, m =>
    if (fieldsOf m).isEmpty then
      if lazyFieldsPanic (mdFields (descOf m)) then .panicked else .ok 0
    else sizeFields (csF fuel) (fieldsOf m) (mdFields (descOf m)) 0

/-- Source `DynamicMessage::write_to_with_cached_sizes` (lines 573-611),
with fuel for the nested-message recursion. -/
def wrF : Nat → DynamicMessage → CRes (List Nat)
  | 0, _ => .fuelOut
  | fuel + 1, m =>
    if (fieldsOf m).isEmpty then
      if lazyFieldsPanic (mdFields (descOf m)) then .panicked else .ok []
    else writeFields (csF fuel) (wrF fuel) (fieldsOf m) (mdFields (descOf m)) 0

mutual
/-- Structural weight of a message, used as interpreter fuel: it strictly
decreases along every nested-message recursion. -/
def msgWeight : DynamicMessage → Nat
  | .mk _ fs _ _ => 1 + cellsWeight fs

/-- Structural weight of a cell list. -/
def cellsWeight : List DynamicFieldValue → Nat
  | [] => 1
  | c :: cs => 1 + cellWeight c + cellsWeight cs

/-- Structural weight of a cell. -/
def cellWeight : DynamicFieldValue → Nat
  | .Singular _ (some b) => 1 + boxWeight b
  | .Singular _ none => 1
  | .Repeated _ vs => 1 + boxesWeight vs
  | .MapCell _ _ => 1

/-- Structural weight of a value list. -/
def boxesWeight : List ReflectValueBox → Nat
  | [] => 1
  | b :: bs => 1 + boxWeight b + boxesWeight bs

/-- Structural weight of a value. -/
def boxWeight : ReflectValueBox → Nat
  | .messageV m => 1 + msgWeight m
  | _ => 1
end

/-- `compute_size` at the canonical fuel (the structural weight strictly
decreases along every nested-message recursion, so the fuel never runs
out). -/
def computeSize (m : DynamicMessage) : CRes Nat := csF (msgWeight m) m

/-- `write_to_with_cached_sizes` at the canonical fuel. -/
def writeTo (m : DynamicMessage) : CRes (List Nat) := wrF (msgWeight m) m

/-- Source `compute_size` as a state-passing function: the method body never
stores into `self.cached_size` (it only folds `m_size` over the fields and
returns it), so the message comes back unchanged. -/
def computeSizeSt (m : DynamicMessage) : CRes Nat × DynamicMessage :=
  (computeSize m, m)

/-- Source `check_repeated_initialized`'s element loop (lines 175-186): every
element of a repeated message field must be a message box (else the
`to_message().unwrap()` panics) whose dynamic `is_initialized` holds. -/
def checkRepInit (childInit : DynamicMessage → CRes Bool) :
    List ReflectValueBox → CRes Bool
  | [] => .ok true
  | b :: bs =>
    match b with
    | .messageV c =>
      match childInit c with
      | .ok true => checkRepInit childInit bs
      | .ok false => .ok false
      | .panicked => .panicked
      | .fuelOut => .fuelOut
    | _ => .panicked

/-- The field walk of `is_initialized` (source lines 280-300 with the
helpers at 166-186): only message-typed fields are inspected (the checks
return `true` for every other runtime type without touching the cell); a set
singular message value and every repeated element must be initialized; the
map arm panics `unimplemented!`. -/
def isInitFields (childInit : DynamicMessage → CRes Bool)
    (cells : List DynamicFieldValue) :
    List FieldDescriptor → Nat → CRes Bool
  | [], _ => .ok true
  | fd :: fds, i =>
    match fdRft fd with
    | .Map _ _ => .panicked
    | .Singular rtb =>
      match rtb with
      | .messageTy _ =>
        match cells[i]? with
        | some (.Singular _ v) =>
          match v with
          | some (.messageV c) =>
            match childInit c with
            | .ok true => isInitFields childInit cells fds (i + 1)
            | .ok false => .ok false
            | .panicked => .panicked
            | .fuelOut => .fuelOut
          | some _ => .panicked
          | none => isInitFields childInit cells fds (i + 1)
        | some _ => .panicked
        | none => .panicked
      | _ => isInitFields childInit cells fds (i + 1)
    | .Repeated rtb =>
      match rtb with
      | .messageTy _ =>
        match cells[i]? with
        | some (.Repeated _ vs) =>
          match checkRepInit childInit vs with
          | .ok true => isInitFields childInit cells fds (i + 1)
          | .ok false => .ok false
          | .panicked => .panicked
          | .fuelOut => .fuelOut
        | some _ => .panicked
        | none => .panicked
      | _ => isInitFields childInit cells fds (i + 1)

/-- Source `DynamicMessage::is_initialized` (lines 280-300), with fuel for
the recursion into submessages (`is_initialized_dyn`).  On a lazy message
every view is empty, so only the map arm's panic can fire. -/
def isInitF : Nat → DynamicMessage → CRes Bool
  | 0, _ => .fuelOut
  | fuel + 1, m =>
    if (fieldsOf m).isEmpty then
      if lazyFieldsPanic (mdFields (descOf m)) then .panicked else .ok true
    else isInitFields (isInitF fuel) (fieldsOf m) (mdFields (descOf m)) 0

/-- `is_initialized` at the canonical fuel. -/
def isInitialized (m : DynamicMessage) : CRes Bool := isInitF (msgWeight m) m

/-- Whether a `merge_from` outcome is normal completion. -/
def MRes.isOk : MRes → Bool
  | .ok _ => true
  | _ => false

/-- Whether the singular slot at field index `i` holds a value. -/
def slotIsSet (m : DynamicMessage) (i : Nat) : Bool :=
  match (fieldsOf m)[i]? with
  | some (.Singular _ (some _)) => true
  | _ => false

/-! Concrete descriptors used by the counterexamples and witnesses. -/

/-- A message with a single singular `int32` field, number 1. -/
def singleI32D : MessageDescriptor := .mk "proto3" [.mk 1 .tInt32 (.Singular .i32) none]

/-- A message with two `int32` fields, numbers 1 and 2, in one oneof group. -/
def oneofD : MessageDescriptor := .mk "proto3"
  [.mk 1 .tInt32 (.Singular .i32) (some 0), .mk 2 .tInt32 (.Singular .i32) (some 0)]

/-- A message with no fields. -/
def emptyD : MessageDescriptor := .mk "proto3" []

/-- A message with a singular message field (of the empty message type),
number 1. -/
def singMsgD : MessageDescriptor := .mk "proto3"
  [.mk 1 .tMessage (.Singular (.messageTy emptyD)) none]

/-- A message with a repeated message field (of the empty message type),
number 1. -/
def repMsgD : MessageDescriptor := .mk "proto3"
  [.mk 1 .tMessage (.Repeated (.messageTy emptyD)) none]

/-- A message with a map field, number 1. -/
def mapFieldD : MessageDescriptor := .mk "proto3" [.mk 1 .tMessage (.Map .i32 .i32) none]

/-- A message with a singular group field, number 1. -/
def groupFieldD : MessageDescriptor := .mk "proto3" [.mk 1 .tGroup (.Singular .u32) none]

/-! Generic facts about the decoder entry points. -/

/-- `init_fields` never changes the descriptor. -/
theorem initFields_descOf (m : DynamicMessage) : descOf (initFields m) = descOf m := by
  cases m with
  | mk d fs u c =>
    unfold initFields
    by_cases h : fs.isEmpty
    · simp only [h, if_true]; rfl
    · simp only [h, if_false]; rfl

/-- `set_fields_default` never changes the descriptor. -/
theorem setFieldsDefault_descOf {m m₁ : DynamicMessage}
    (h : setFieldsDefault m = some m₁) : descOf m₁ = descOf m := by
  simp only [setFieldsDefault] at h
  split at h
  · cases h; exact initFields_descOf m
  · split at h
    · split at h
      · cases h
        show descOf (initFields m) = descOf m
        exact initFields_descOf m
      · exact absurd h (by simp)
    · exact absurd h (by simp)

/-- A successful tag read means the stream was not at eof. -/
theorem readTag_isEmpty_false {bs : List Nat} {x : (Nat × WireType) × List Nat}
    (h : readTag bs = some x) : bs.isEmpty = false := by
  cases bs with
  | nil => simp [readTag, readVarint32, readVarint64, readVarintAux] at h
  | cons b rest => rfl

/-! ### Claim C1 — unknown field numbers -/

/-- Claim C1, counterexample: decoding `[0x10, 0x01]` (a varint field with
the unknown number 2, followed by a well-formed varint payload) against a
descriptor that only declares field 1 does not succeed and does not route
the bytes anywhere: `merge_from` panics on the
`get_field_by_number(..).expect("Invalid field number at decoding")`. -/
theorem claimC1_counterexample :
    mergeFrom (newInstance singleI32D) ⟨[16, 1], 0, 100⟩ = .panicked := rfl

/-- Claim C1, amended: during `merge_from`, a tag whose field number is not
defined in the message's descriptor is fatal — the decoder panics via
`expect` (it neither stores the bytes as unknown fields nor skips them, and
decoding does not continue). -/
theorem claimC1_theorem (m : DynamicMessage) (s : IStream)
    (num : Nat) (wt : WireType) (rest : List Nat)
    (h1 : readTag s.data = some ((num, wt), rest))
    (h2 : findFieldByNumber (descOf m) num = none) :
    mergeFrom m s = .panicked := by
  unfold mergeFrom
  cases hsd : setFieldsDefault m with
  | none => rfl
  | some m₁ =>
    have hd : descOf m₁ = descOf m := setFieldsDefault_descOf hsd
    have hne : s.data.isEmpty = false := readTag_isEmpty_false h1
    show loopF (2 * s.data.length + 1 + 1) m₁ s = .panicked
    simp [loopF, hne, h1, hd, h2]

/-- Claim C1, witness for the amended theorem. -/
theorem claimC1_witness : mergeFrom (newInstance singleI32D) ⟨[16, 1], 0, 100⟩ = .panicked :=
  claimC1_theorem (newInstance singleI32D) ⟨[16, 1], 0, 100⟩ 2 .varint [1] rfl rfl

/-! ### Claim C2 — set_field and oneof exclusivity -/

/-- Claim C2, failing run: on a message whose fields 1 and 2 share a oneof
group, `set_field(field1, 5)` followed by `set_field(field2, 7)` leaves BOTH
members set — `set_field` (source lines 250-258) only materializes and
assigns, the clearing of the other group members is a `TODO` in the source.
The spec's oneof-exclusivity invariant is violated. -/
theorem claimC2_theorem :
    ((setField (newInstance oneofD) 0 (.i32V 5)).bind
        fun m => setField m 1 (.i32V 7)).map
      (fun m => (slotIsSet m 0, slotIsSet m 1)) = some (true, true) := rfl

/-! ### Claim C5 — recursion bracketing for nested messages -/

/-- Claim C5, failing run: with the stream already at its recursion limit,
decoding a singular nested message fails with the stream's recursion-depth
error (the singular arm brackets `merge_message_dyn` with `incr_recursion`/
`decr_recursion`, source lines 326-337), but decoding a repeated nested
message SUCCEEDS — the repeated arm (source lines 554-564) calls
`merge_message_dyn` without touching the recursion counter, so the depth
bound is not honored there. -/
theorem claimC5_theorem :
    mergeFrom (newInstance singMsgD) ⟨[10, 0], 100, 100⟩ = .err .recursionLimitExceeded ∧
    (mergeFrom (newInstance repMsgD) ⟨[10, 0], 100, 100⟩).isOk = true := ⟨rfl, rfl⟩

/-! ### Claim C9 — compute_size does not mutate -/

/-- Claim C9: `compute_size`, modelled as a state-passing function
translated from the source body (which never assigns to `self.cached_size`),
returns the message unchanged; in particular `get_cached_size` after the
call returns the same value as before it, and the returned size is the
sizer's value. -/
theorem claimC9_theorem (m : DynamicMessage) :
    (computeSizeSt m).2 = m ∧
    getCachedSize (computeSizeSt m).2 = getCachedSize m ∧
    (computeSizeSt m).1 = computeSize m :=
  ⟨rfl, rfl, rfl⟩

/-! ### Claim C6 — unsupported constructs -/

/-- Claim C6, counterexample: decoding the single byte `0x0A` — a tag that
routes to a map-valued field — SILENTLY SUCCEEDS: `merge_from`'s map arm
(source line 567) is empty, so the tag is dropped, its payload is never
consumed, and the loop reports success at eof.  No "not implemented" signal
is raised on the decode path. -/
theorem claimC6_counterexample :
    mergeFrom (newInstance mapFieldD) ⟨[10], 0, 100⟩ =
      .ok (.mk mapFieldD [.MapCell .i32 .i32] [] 0) := rfl

/-- Claim C6, amended: `TYPE_GROUP` decode and map-field encode/size are
fatal `unimplemented!` panics, but `merge_from` does NOT reject tags routed
to map fields — it drops the tag (without consuming the payload) and
continues the loop on the remaining bytes. -/
theorem claimC6_theorem :
    (∀ (m : DynamicMessage) (s : IStream) (num : Nat) (wt : WireType)
       (rest : List Nat) (i : Nat) (fd : FieldDescriptor) (rtb : RuntimeTypeBox),
       readTag s.data = some ((num, wt), rest) →
       findFieldByNumber (descOf m) num = some (i, fd) →
       fdRft fd = .Singular rtb → fdType fd = .tGroup →
       mergeFrom m s = .panicked) ∧
    (∀ (m : DynamicMessage) (fd : FieldDescriptor) (fds : List FieldDescriptor)
       (k v : RuntimeTypeBox),
       mdFields (descOf m) = fd :: fds → fdRft fd = .Map k v →
       computeSize m = .panicked ∧ writeTo m = .panicked) ∧
    (∀ (fuel : Nat) (m : DynamicMessage) (s : IStream) (num : Nat)
       (wt : WireType) (rest : List Nat) (i : Nat) (fd : FieldDescriptor)
       (k v : RuntimeTypeBox),
       readTag s.data = some ((num, wt), rest) →
       findFieldByNumber (descOf m) num = some (i, fd) →
       fdRft fd = .Map k v →
       loopF (fuel + 1) m s = loopF fuel m ⟨rest, s.depth, s.limit⟩) := by
  refine ⟨?_, ?_, ?_⟩
  · intro m s num wt rest i fd rtb h1 h2 h3 h4
    unfold mergeFrom
    cases hsd : setFieldsDefault m with
    | none => rfl
    | some m₁ =>
      have hd : descOf m₁ = descOf m := setFieldsDefault_descOf hsd
      have hne : s.data.isEmpty = false := readTag_isEmpty_false h1
      show loopF (2 * s.data.length + 1 + 1) m₁ s = .panicked
      simp [loopF, hne, h1, hd, h2, h3, h4]
  · intro m fd fds k v h1 h2
    cases m with
    | mk d fs u c =>
      have hw : msgWeight (DynamicMessage.mk d fs u c) = cellsWeight fs + 1 := by
        simp [msgWeight, Nat.add_comm]
      constructor
      · show csF (msgWeight (DynamicMessage.mk d fs u c)) _ = _
        rw [hw]
        by_cases hfe : fs.isEmpty
        · simp only [descOf] at h1
          simp [csF, fieldsOf, hfe, descOf, h1, lazyFieldsPanic, h2]
        · simp only [descOf] at h1
          simp [csF, fieldsOf, hfe, descOf, h1, sizeFields, h2]
      · show wrF (msgWeight (DynamicMessage.mk d fs u c)) _ = _
        rw [hw]
        by_cases hfe : fs.isEmpty
        · simp only [descOf] at h1
          simp [wrF, fieldsOf, hfe, descOf, h1, lazyFieldsPanic, h2]
        · simp only [descOf] at h1
          simp [wrF, fieldsOf, hfe, descOf, h1, writeFields, h2]
  · intro fuel m s num wt rest i fd k v h1 h2 h3
    have hne : s.data.isEmpty = false := readTag_isEmpty_false h1
    simp [loopF, hne, h1, h2, h3]

/-- Claim C6, witness for the amended theorem at concrete inputs: a group
tag panics, sizing a map-field message panics, and a map-routed tag is
skipped. -/
theorem claimC6_witness :
    mergeFrom (newInstance groupFieldD) ⟨[13, 0, 0, 0, 0], 0, 100⟩ = .panicked ∧
    computeSize (newInstance mapFieldD) = .panicked ∧
    loopF 3 (newInstance mapFieldD) ⟨[10], 0, 100⟩ =
      loopF 2 (newInstance mapFieldD) ⟨[], 0, 100⟩ :=
  ⟨claimC6_theorem.1 (newInstance groupFieldD) ⟨[13, 0, 0, 0, 0], 0, 100⟩
      1 .fixed32 [0, 0, 0, 0] 0 (.mk 1 .tGroup (.Singular .u32) none) .u32 rfl rfl rfl rfl,
   (claimC6_theorem.2.1 (newInstance mapFieldD) (.mk 1 .tMessage (.Map .i32 .i32) none)
      [] .i32 .i32 rfl rfl).1,
   claimC6_theorem.2.2 2 (newInstance mapFieldD) ⟨[10], 0, 100⟩
      1 .lengthDelimited [] 0 (.mk 1 .tMessage (.Map .i32 .i32) none) .i32 .i32 rfl rfl rfl⟩

/-! ### Claim C7 — proto3 default initialization -/

/-- The proto3 default value of a runtime scalar type, as the spec lists
them: zero for numerics, `false` for bool, empty string/bytes, enum value
0.  Message types have no such default (`none`). -/
def proto3DefaultBox : RuntimeTypeBox → Option ReflectValueBox
  | .i32 => some (.i32V 0)
  | .i64 => some (.i64V 0)
  | .u32 => some (.u32V 0)
  | .u64 => some (.u64V 0)
  | .f32 => some (.f32V 0)
  | .f64 => some (.f64V 0)
  | .boolTy => some (.boolV false)
  | .stringTy => some (.stringV [])
  | .vecU8 => some (.bytesV [])
  | .enumTy ed => some (.enumV ed 0)
  | .messageTy _ => none

/-- On a singular cell, `set_default_for_merge` installs the runtime type's
proto3 default when there is one, and keeps the slot as it is for message
types (the source's `_ => {}` catch-all). -/
theorem setDefaultForMerge_singular (fd : FieldDescriptor) (t : RuntimeTypeBox)
    (v : Option ReflectValueBox) (rtb : RuntimeTypeBox) (h : fdRft fd = .Singular rtb) :
    setDefaultForMerge fd (.Singular t v) =
      some (.Singular t ((proto3DefaultBox rtb).or v)) := by
  unfold setDefaultForMerge
  rw [h]
  cases rtb <;> rfl

/-- On a field whose shape is not singular, `set_default_for_merge` is the
identity. -/
theorem setDefaultForMerge_nonsingular (fd : FieldDescriptor) (c : DynamicFieldValue)
    (h : ∀ rtb, fdRft fd ≠ .Singular rtb) : setDefaultForMerge fd c = some c := by
  unfold setDefaultForMerge
  cases hr : fdRft fd with
  | Singular rtb => exact absurd hr (h rtb)
  | Repeated _ => rfl
  | Map _ _ => rfl

/-- Index-wise description of `set_fields_default`'s loop: the output cell
at each field index is `set_default_for_merge` of the input cell, and the
length is preserved. -/
theorem setFieldsDefaultAux_get :
    ∀ (fds : List FieldDescriptor) (cells cells' : List DynamicFieldValue),
      setFieldsDefaultAux fds cells = some cells' →
      cells'.length = cells.length ∧
      (∀ (i : Nat) (fd : FieldDescriptor) (c : DynamicFieldValue),
        fds[i]? = some fd → cells[i]? = some c →
        cells'[i]? = setDefaultForMerge fd c) ∧
      (∀ i : Nat, fds[i]? = none → cells'[i]? = cells[i]?) := by
  intro fds
  induction fds with
  | nil =>
    intro cells cells' h
    simp only [setFieldsDefaultAux] at h
    cases h
    refine ⟨rfl, ?_, fun _ _ => rfl⟩
    intro i fd c hfd
    simp at hfd
  | cons fd rest ih =>
    intro cells cells' h
    cases cells with
    | nil => simp [setFieldsDefaultAux] at h
    | cons c cs =>
      simp only [setFieldsDefaultAux] at h
      cases hsd : setDefaultForMerge fd c with
      | none => rw [hsd] at h; simp at h
      | some c' =>
        rw [hsd] at h
        cases haux : setFieldsDefaultAux rest cs with
        | none => rw [haux] at h; simp at h
        | some cs' =>
          rw [haux] at h
          cases h
          obtain ⟨ihlen, ihget, ihnone⟩ := ih cs cs' haux
          refine ⟨by simp [ihlen], ?_, ?_⟩
          · intro i fd' cc hfd hc
            cases i with
            | zero =>
              simp at hfd hc
              subst hfd; subst hc
              simp [hsd]
            | succ j =>
              simp only [List.getElem?_cons_succ] at hfd hc ⊢
              exact ihget j fd' cc hfd hc
          · intro i hfd
            cases i with
            | zero => simp at hfd
            | succ j =>
              simp only [List.getElem?_cons_succ] at hfd ⊢
              exact ihnone j hfd

/-- Claim C7, counterexample: on a proto3 descriptor with one singular
MESSAGE-typed field, `set_fields_default` leaves the slot unset — the
claim's "every singular field's slot is set to its type's proto3 default"
fails for message-typed fields (`set_default_for_merge`'s `_ => {}`
catch-all skips `RuntimeTypeBox::Message`). -/
theorem claimC7_counterexample :
    (setFieldsDefault (newInstance singMsgD)).map (fun m => slotIsSet m 0) =
      some false := rfl

/-- Claim C7, amended: `set_fields_default` materializes the field vector;
if the syntax is not "proto3" nothing else happens; under proto3, every
singular field of numeric, bool, string, bytes or enum runtime type has its
slot overwritten with the type's proto3 default, a singular MESSAGE-typed
field keeps its slot (unset on a fresh message), and fields of non-singular
shape (repeated, map) are untouched. -/
theorem claimC7_theorem (m m₁ : DynamicMessage) (h : setFieldsDefault m = some m₁) :
    (mdSyn (descOf m) ≠ "proto3" → m₁ = initFields m) ∧
    (mdSyn (descOf m) = "proto3" →
      (fieldsOf m₁).length = (fieldsOf (initFields m)).length ∧
      (∀ (i : Nat) (fd : FieldDescriptor) (t : RuntimeTypeBox)
         (v : Option ReflectValueBox),
        (mdFields (descOf m))[i]? = some fd →
        (fieldsOf (initFields m))[i]? = some (.Singular t v) →
        ∀ rtb, fdRft fd = .Singular rtb →
          (fieldsOf m₁)[i]? = some (.Singular t ((proto3DefaultBox rtb).or v))) ∧
      (∀ (i : Nat) (fd : FieldDescriptor) (c : DynamicFieldValue),
        (mdFields (descOf m))[i]? = some fd →
        (∀ rtb, fdRft fd ≠ .Singular rtb) →
        (fieldsOf (initFields m))[i]? = some c →
        (fieldsOf m₁)[i]? = some c)) := by
  have hdesc := initFields_descOf m
  simp only [setFieldsDefault] at h
  split at h
  case isTrue hs =>
    cases h
    rw [hdesc] at hs
    refine ⟨fun _ => rfl, fun hp3 => absurd hp3 hs⟩
  case isFalse hs =>
    rw [hdesc] at hs
    have hp3 : mdSyn (descOf m) = "proto3" := by
      by_contra hc
      exact hs hc
    split at h
    case isFalse hlen => simp at h
    case isTrue hlen =>
      cases haux : setFieldsDefaultAux (mdFields (descOf (initFields m))) (fieldsOf (initFields m)) with
      | none => rw [haux] at h; simp at h
      | some cells =>
        rw [haux] at h
        cases h
        rw [hdesc] at haux
        obtain ⟨hl, hget, _⟩ := setFieldsDefaultAux_get _ _ _ haux
        refine ⟨fun hc => absurd hp3 hc, fun _ => ⟨hl, ?_, ?_⟩⟩
        · intro i fd t v hfd hcell rtb hrtb
          have := hget i fd (.Singular t v) hfd hcell
          rw [setDefaultForMerge_singular fd t v rtb hrtb] at this
          exact this
        · intro i fd c hfd hns hcell
          have := hget i fd c hfd hcell
          rw [setDefaultForMerge_nonsingular fd c hns] at this
          exact this

/-- Claim C7, witness: on a fresh proto3 message with one singular `int32`
field, defaulting sets the slot to `0`. -/
theorem claimC7_witness :
    (fieldsOf (DynamicMessage.mk singleI32D [.Singular .i32 (some (.i32V 0))] [] 0))[0]? =
      some (.Singular .i32 (some (.i32V 0))) :=
  (claimC7_theorem (newInstance singleI32D)
      (DynamicMessage.mk singleI32D [.Singular .i32 (some (.i32V 0))] [] 0) rfl).2
    rfl |>.2.1 0 (.mk 1 .tInt32 (.Singular .i32) none) .i32 none rfl rfl .i32 rfl

/-! ### Wire primitive inversion lemmas -/

/-- The varint reader inverts the varint encoder (auxiliary form). -/
theorem readVarintAux_enc (f : Nat) :
    ∀ (n : Nat) (r : List Nat), n < 128 ^ (f + 1) →
      readVarintAux (f + 1) (varintEncAux f n ++ r) = some (n, r) := by
  induction f with
  | zero =>
    intro n r h
    have hn : n < 128 := by simpa using h
    simp [varintEncAux, readVarintAux, Nat.mod_eq_of_lt hn, hn]
  | succ f ih =>
    intro n r h
    by_cases hn : n < 128
    · simp [varintEncAux, readVarintAux, hn]
    · have hq : n / 128 < 128 ^ (f + 1) := by
        rw [Nat.div_lt_iff_lt_mul (by norm_num)]
        calc n < 128 ^ (f + 1 + 1) := h
        _ = 128 ^ (f + 1) * 128 := by ring
      have hb : ¬(n % 128 + 128 < 128) := by omega
      simp only [varintEncAux, if_neg hn, List.cons_append, readVarintAux, if_neg hb,
        ih (n / 128) r hq]
      have : (n % 128 + 128) % 128 + 128 * (n / 128) = n := by omega
      rw [this]

/-- `read_raw_varint64` inverts the varint encoding of any 64-bit value. -/
theorem readVarint64_enc (n : Nat) (r : List Nat) (h : n < 2 ^ 64) :
    readVarint64 (varintEnc n ++ r) = some (n, r) := by
  have h10 : n < 128 ^ 10 := lt_of_lt_of_le h (by norm_num)
  simp only [readVarint64, varintEnc, readVarintAux_enc 9 n r h10]
  rw [Nat.mod_eq_of_lt h]

/-- `read_raw_varint32` inverts the varint encoding of any 32-bit value. -/
theorem readVarint32_enc (n : Nat) (r : List Nat) (h : n < 2 ^ 32) :
    readVarint32 (varintEnc n ++ r) = some (n, r) := by
  have h64 : n < 2 ^ 64 := lt_of_lt_of_le h (by norm_num)
  simp only [readVarint32, readVarint64_enc n r h64]
  rw [Nat.mod_eq_of_lt h]

/-- The fixed-width reader inverts the little-endian encoder. -/
theorem readLE_enc (k : Nat) :
    ∀ (v : Nat) (r : List Nat), v < 256 ^ k →
      readLE k (leEnc k v ++ r) = some (v, r) := by
  induction k with
  | zero =>
    intro v r h
    have : v = 0 := by simpa using h
    simp [this, leEnc, readLE]
  | succ k ih =>
    intro v r h
    have hq : v / 256 < 256 ^ k := by
      rw [Nat.div_lt_iff_lt_mul (by norm_num)]
      calc v < 256 ^ (k + 1) := h
      _ = 256 ^ k * 256 := by ring
    simp only [leEnc, List.cons_append, readLE]
    rw [show (leEnc k (v / 256)).append r = leEnc k (v / 256) ++ r from rfl,
      ih (v / 256) r hq]
    simp only [Option.some.injEq, Prod.mk.injEq, and_true]
    omega

/-- A varint encoding is never empty. -/
theorem varintEnc_ne_nil (n : Nat) : varintEnc n ≠ [] := by
  unfold varintEnc varintEncAux
  by_cases h : n < 128 <;> simp [h]

/-- A varint encoding has at least one byte. -/
theorem varintEnc_length_pos (n : Nat) : 1 ≤ (varintEnc n).length := by
  cases he : varintEnc n with
  | nil => exact absurd he (varintEnc_ne_nil n)
  | cons b bs => simp

/-- Reinterpreting the 64-bit two's-complement pattern of an `i32`-ranged
integer as an `i32` gives the integer back (this is what `read_int32` does
to a canonically encoded negative `int32`). -/
theorem toI32_bits64 (n : Int) (hlo : -(2 ^ 31) ≤ n) (hhi : n < 2 ^ 31) :
    toI32 (bits64 n) = n := by
  simp only [toI32, bits64]
  split <;> omega

/-- Reinterpreting the 64-bit two's-complement pattern of an `i64`-ranged
integer as an `i64` gives the integer back. -/
theorem toI64_bits64 (n : Int) (hlo : -(2 ^ 63) ≤ n) (hhi : n < 2 ^ 63) :
    toI64 (bits64 n) = n := by
  simp only [toI64, bits64]
  split <;> omega

/-- The 64-bit pattern of an integer is a 64-bit value. -/
theorem bits64_lt (n : Int) : bits64 n < 2 ^ 64 := by
  unfold bits64
  omega

/-- The 32-bit pattern of an integer is a 32-bit value. -/
theorem bits32_lt (n : Int) : bits32 n < 2 ^ 32 := by
  unfold bits32
  omega

/-- Zigzag decoding inverts zigzag encoding on the 32-bit range, and the
encoded value fits in 32 bits. -/
theorem unzigzag_zigzag32 (v : Int) (hlo : -(2 ^ 31) ≤ v) (hhi : v < 2 ^ 31) :
    unzigzag (zigzag32 v) = v ∧ zigzag32 v < 2 ^ 32 := by
  unfold unzigzag zigzag32
  by_cases h : 0 ≤ v <;> simp [h] <;> constructor <;> first
    | (split <;> omega)
    | omega

/-- Zigzag decoding inverts zigzag encoding on the 64-bit range, and the
encoded value fits in 64 bits. -/
theorem unzigzag_zigzag64 (v : Int) (hlo : -(2 ^ 63) ≤ v) (hhi : v < 2 ^ 63) :
    unzigzag (zigzag64 v) = v ∧ zigzag64 v < 2 ^ 64 := by
  unfold unzigzag zigzag64
  by_cases h : 0 ≤ v <;> simp [h] <;> constructor <;> first
    | (split <;> omega)
    | omega

/-- Reading a one-byte tag (field number below 16, any valid wire type). -/
theorem readTag_small (num : Nat) (wt : WireType) (r : List Nat)
    (h1 : 1 ≤ num) (h2 : num < 16) :
    readTag (tagEnc num wt ++ r) = some ((num, wt), r) := by
  have hv : 8 * num + wtVal wt < 2 ^ 32 := by cases wt <;> simp [wtVal] <;> omega
  unfold readTag tagEnc
  rw [readVarint32_enc _ _ hv]
  have hmod : (8 * num + wtVal wt) % 8 = wtVal wt := by cases wt <;> simp [wtVal] <;> omega
  have hdiv : (8 * num + wtVal wt) / 8 = num := by cases wt <;> simp [wtVal] <;> omega
  have hwt : wtOfNat (wtVal wt) = some wt := by cases wt <;> rfl
  dsimp only
  rw [hmod, hdiv, hwt]
  have hnz : ¬(num = 0) := by omega
  simp [hnz]

/-- The tag loop accepts an exhausted stream. -/
theorem loopF_nil (f : Nat) (m : DynamicMessage) (d l : Nat) :
    loopF (f + 1) m ⟨[], d, l⟩ = .ok m := by
  simp [loopF]

/-! ### Claim C10 — enum decoding, negative numbers -/

/-- A proto3 message with one repeated enum field, number 1. -/
def enumRepDesc (ed : List Int) : MessageDescriptor :=
  .mk "proto3" [.mk 1 .tEnum (.Repeated (.enumTy ed)) none]

/-- A proto3 message with one singular enum field, number 1. -/
def enumSingDesc (ed : List Int) : MessageDescriptor :=
  .mk "proto3" [.mk 1 .tEnum (.Singular (.enumTy ed)) none]

/-- Claim C10: decoding a varint `n` into a repeated enum field appends an
enum-value descriptor built from `n` when `n ≥ 0`, but PANICS when the
decoded int32 is negative (the `enum_num.try_into().unwrap()` of source line
547) instead of returning a decode error; the singular enum path instead
reinterprets the negative number as the unsigned index `2^64 + n`
(`enum_num as usize`, source line 346). -/
theorem claimC10_theorem (ed : List Int) (n : Int)
    (hlo : -(2 ^ 31) ≤ n) (hhi : n < 2 ^ 31) :
    (0 ≤ n →
      mergeFrom (newInstance (enumRepDesc ed)) ⟨8 :: varintEnc (bits64 n), 0, 100⟩ =
        .ok (.mk (enumRepDesc ed) [.Repeated (.enumTy ed) [.enumV ed n.toNat]] [] 0)) ∧
    (n < 0 →
      mergeFrom (newInstance (enumRepDesc ed)) ⟨8 :: varintEnc (bits64 n), 0, 100⟩ =
        .panicked) ∧
    (n < 0 →
      mergeFrom (newInstance (enumSingDesc ed)) ⟨8 :: varintEnc (bits64 n), 0, 100⟩ =
        .ok (.mk (enumSingDesc ed)
          [.Singular (.enumTy ed) (some (.enumV ed (2 ^ 64 + n).toNat))] [] 0)) := by
  have hrt : readTag (8 :: varintEnc (bits64 n)) =
      some ((1, WireType.varint), varintEnc (bits64 n)) := rfl
  have hrv : readVarint64 (varintEnc (bits64 n)) = some (bits64 n, []) := by
    simpa using readVarint64_enc (bits64 n) [] (bits64_lt n)
  have hn32 := toI32_bits64 n hlo hhi
  refine ⟨?_, ?_, ?_⟩
  · intro hpos
    have hneg : ¬((toI32 (bits64 n)) < 0) := by omega
    unfold mergeFrom
    rw [show setFieldsDefault (newInstance (enumRepDesc ed)) =
      some (.mk (enumRepDesc ed) [.Repeated (.enumTy ed) []] [] 0) from rfl]
    show loopF (2 * (8 :: varintEnc (bits64 n)).length + 1 + 1) _ _ = _
    rw [loopF]
    simp only [List.isEmpty_cons, hrt, hrv, hneg, hn32]
    rw [show (2 * (8 :: varintEnc (bits64 n)).length + 1) =
      (2 * (8 :: varintEnc (bits64 n)).length) + 1 from rfl]
    simp [loopF, enumRepDesc, findFieldByNumber, findFieldAux, fdNumber, fdRft, fdType,
      descOf, fieldsOf, initFields, setCell, scalarWire, newInstance, hrv, hneg, hn32]
    all_goals omega
  · intro hneg
    have hneg' : (toI32 (bits64 n)) < 0 := by omega
    unfold mergeFrom
    rw [show setFieldsDefault (newInstance (enumRepDesc ed)) =
      some (.mk (enumRepDesc ed) [.Repeated (.enumTy ed) []] [] 0) from rfl]
    show loopF (2 * (8 :: varintEnc (bits64 n)).length + 1 + 1) _ _ = _
    rw [loopF]
    simp [List.isEmpty_cons, hrt, hrv, hneg', enumRepDesc, findFieldByNumber,
      findFieldAux, fdNumber, fdRft, fdType, descOf, fieldsOf, initFields, setCell,
      scalarWire, newInstance]
  · intro hneg
    have hneg' : ¬(0 ≤ toI32 (bits64 n)) := by omega
    unfold mergeFrom
    rw [show setFieldsDefault (newInstance (enumSingDesc ed)) =
      some (.mk (enumSingDesc ed) [.Singular (.enumTy ed) (some (.enumV ed 0))] [] 0) from rfl]
    show loopF (2 * (8 :: varintEnc (bits64 n)).length + 1 + 1) _ _ = _
    rw [loopF]
    simp [List.isEmpty_cons, hrt, hrv, hneg', hn32, enumSingDesc, findFieldByNumber,
      findFieldAux, fdNumber, fdRft, fdType, descOf, fieldsOf, initFields, setField,
      setCell, newInstance, loopF_nil]
    all_goals omega

/-- Claim C10, witness at `n = 2` (appended with index 2) and `n = -1`
(repeated decode panics, singular stores index `2^64 - 1`). -/
theorem claimC10_witness :
    (mergeFrom (newInstance (enumRepDesc [0, 1, 2])) ⟨8 :: varintEnc (bits64 2), 0, 100⟩ =
      .ok (.mk (enumRepDesc [0, 1, 2]) [.Repeated (.enumTy [0, 1, 2]) [.enumV [0, 1, 2] 2]] [] 0)) ∧
    (mergeFrom (newInstance (enumRepDesc [0, 1, 2])) ⟨8 :: varintEnc (bits64 (-1)), 0, 100⟩ =
      .panicked) ∧
    (mergeFrom (newInstance (enumSingDesc [0, 1, 2])) ⟨8 :: varintEnc (bits64 (-1)), 0, 100⟩ =
      .ok (.mk (enumSingDesc [0, 1, 2])
        [.Singular (.enumTy [0, 1, 2]) (some (.enumV [0, 1, 2] (2 ^ 64 + (-1 : Int)).toNat))] [] 0)) :=
  ⟨(claimC10_theorem [0, 1, 2] 2 (by norm_num) (by norm_num)).1 (by norm_num),
   (claimC10_theorem [0, 1, 2] (-1) (by norm_num) (by norm_num)).2.1 (by norm_num),
   (claimC10_theorem [0, 1, 2] (-1) (by norm_num) (by norm_num)).2.2 (by norm_num)⟩

/-! ### Claim C8 — is_initialized -/

/-- Whether a value box is a message. -/
def boxIsMsg : ReflectValueBox → Bool
  | .messageV _ => true
  | _ => false

/-- The messages held in a list of value boxes, in order. -/
def msgBoxes : List ReflectValueBox → List DynamicMessage
  | [] => []
  | .messageV c :: bs => c :: msgBoxes bs
  | _ :: bs => msgBoxes bs

/-- The present message values of a message, walked the way `is_initialized`
does: the value of each set singular message-typed field and every element
of each repeated message-typed field, in descriptor order. -/
def presentMsgsAux (cells : List DynamicFieldValue) :
    List FieldDescriptor → Nat → List DynamicMessage
  | [], _ => []
  | fd :: fds, i =>
    (match fdRft fd, cells[i]? with
     | .Singular (.messageTy _), some (.Singular _ (some (.messageV c))) => [c]
     | .Repeated (.messageTy _), some (.Repeated _ vs) => msgBoxes vs
     | _, _ => []) ++ presentMsgsAux cells fds (i + 1)

/-- The present message values of a message. -/
def presentMsgs (m : DynamicMessage) : List DynamicMessage :=
  if (fieldsOf m).isEmpty then [] else presentMsgsAux (fieldsOf m) (mdFields (descOf m)) 0

/-- No field of the list is map-shaped. -/
def noMapList : List FieldDescriptor → Bool
  | [] => true
  | fd :: fds =>
    (match fdRft fd with
     | .Map _ _ => false
     | _ => true) && noMapList fds

/-- The message-typed fields among `fds` (from position `i` on) have cells
of the declared shape holding message boxes — the well-formedness that the
engine's own mutators maintain and that keeps `is_initialized`'s
`to_message().unwrap()` from panicking. -/
def shapeCells (cells : List DynamicFieldValue) : List FieldDescriptor → Nat → Bool
  | [], _ => true
  | fd :: fds, i =>
    (match fdRft fd with
     | .Singular (.messageTy _) =>
       match cells[i]? with
       | some (.Singular _ none) => true
       | some (.Singular _ (some (.messageV _))) => true
       | _ => false
     | .Repeated (.messageTy _) =>
       match cells[i]? with
       | some (.Repeated _ vs) => vs.all boxIsMsg
       | _ => false
     | _ => true) && shapeCells cells fds (i + 1)

/-- Shape well-formedness of a message's message-typed cells. -/
def shapeOkB (m : DynamicMessage) : Bool :=
  (fieldsOf m).isEmpty || shapeCells (fieldsOf m) (mdFields (descOf m)) 0

/-- Without map fields, the lazy walk cannot panic. -/
theorem noMapList_lazy : ∀ fds, noMapList fds = true → lazyFieldsPanic fds = false := by
  intro fds
  induction fds with
  | nil => intro _; rfl
  | cons fd rest ih =>
    intro h
    simp only [noMapList, Bool.and_eq_true] at h
    cases hr : fdRft fd <;> rw [hr] at h <;>
      simp only [lazyFieldsPanic, hr] <;> first
        | exact ih h.2
        | simp at h

/-- On a list of message boxes, the repeated-element check of
`is_initialized` answers exactly "every element's message is initialized". -/
theorem checkRepInit_msgBoxes (ci : DynamicMessage → CRes Bool) :
    ∀ vs : List ReflectValueBox, vs.all boxIsMsg = true →
      (∀ c ∈ msgBoxes vs, (ci c).isOk = true) →
      checkRepInit ci vs = .ok ((msgBoxes vs).all fun c => decide (ci c = .ok true)) := by
  intro vs
  induction vs with
  | nil => intro _ _; rfl
  | cons b bs ih =>
    intro hall hkids
    simp only [List.all_cons, Bool.and_eq_true] at hall
    cases b with
    | messageV c =>
      have hc : (ci c).isOk = true := hkids c (by simp [msgBoxes])
      cases hci : ci c with
      | ok bv =>
        cases bv with
        | true =>
          simp only [checkRepInit, hci, msgBoxes, List.all_cons]
          rw [ih hall.2 (fun c' hc' => hkids c' (by simp [msgBoxes, hc']))]
          simp [hci]
        | false =>
          simp [checkRepInit, hci, msgBoxes, List.all_cons]
      | panicked => rw [hci] at hc; simp [CRes.isOk] at hc
      | fuelOut => rw [hci] at hc; simp [CRes.isOk] at hc
    | i32V v => simp [boxIsMsg] at hall
    | i64V v => simp [boxIsMsg] at hall
    | u32V v => simp [boxIsMsg] at hall
    | u64V v => simp [boxIsMsg] at hall
    | f32V v => simp [boxIsMsg] at hall
    | f64V v => simp [boxIsMsg] at hall
    | boolV v => simp [boxIsMsg] at hall
    | stringV v => simp [boxIsMsg] at hall
    | bytesV v => simp [boxIsMsg] at hall
    | enumV ed idx => simp [boxIsMsg] at hall

/-- The field walk of `is_initialized` answers exactly "every present
message value is initialized", given no map fields, well-shaped cells, and
children whose own check does not panic. -/
theorem isInitFields_eq (ci : DynamicMessage → CRes Bool)
    (cells : List DynamicFieldValue) :
    ∀ (fds : List FieldDescriptor) (i : Nat),
      noMapList fds = true →
      shapeCells cells fds i = true →
      (∀ c ∈ presentMsgsAux cells fds i, (ci c).isOk = true) →
      isInitFields ci cells fds i =
        .ok ((presentMsgsAux cells fds i).all fun c => decide (ci c = .ok true)) := by
  intro fds
  induction fds with
  | nil => intro i _ _ _; rfl
  | cons fd rest ih =>
    intro i hmap hshape hkids
    simp only [noMapList, Bool.and_eq_true] at hmap
    simp only [shapeCells, Bool.and_eq_true] at hshape
    cases hr : fdRft fd with
    | Map k v => rw [hr] at hmap; simp at hmap
    | Singular rtb =>
      rw [hr] at hmap hshape
      cases rtb with
      | messageTy md =>
        cases hcell : cells[i]? with
        | none => rw [hcell] at hshape; simp at hshape
        | some cell =>
          rw [hcell] at hshape
          cases cell with
          | Singular t v =>
            cases v with
            | none =>
              simp only [isInitFields, hr, hcell, presentMsgsAux, List.nil_append]
              exact ih (i + 1) hmap.2 hshape.2
                (by simpa [presentMsgsAux, hr, hcell] using hkids)
            | some box =>
              cases box with
              | messageV c =>
                have hc : (ci c).isOk = true := hkids c (by simp [presentMsgsAux, hr, hcell])
                cases hci : ci c with
                | ok bv =>
                  cases bv with
                  | true =>
                    simp only [isInitFields, hr, hcell, hci, presentMsgsAux,
                      List.singleton_append, List.all_cons]
                    rw [ih (i + 1) hmap.2 hshape.2
                      (by intro c' hc'; exact hkids c' (by simp [presentMsgsAux, hr, hcell, hc']))]
                    simp [hci]
                  | false =>
                    simp [isInitFields, hr, hcell, hci, presentMsgsAux]
                | panicked => rw [hci] at hc; simp [CRes.isOk] at hc
                | fuelOut => rw [hci] at hc; simp [CRes.isOk] at hc
              | i32V x => simp at hshape
              | i64V x => simp at hshape
              | u32V x => simp at hshape
              | u64V x => simp at hshape
              | f32V x => simp at hshape
              | f64V x => simp at hshape
              | boolV x => simp at hshape
              | stringV x => simp at hshape
              | bytesV x => simp at hshape
              | enumV e x => simp at hshape
          | Repeated t vs => simp at hshape
          | MapCell k v => simp at hshape
      | i32 =>
        simp only [isInitFields, hr, presentMsgsAux, List.nil_append]
        exact ih (i + 1) hmap.2 hshape.2 (by simpa [presentMsgsAux, hr] using hkids)
      | i64 =>
        simp only [isInitFields, hr, presentMsgsAux, List.nil_append]
        exact ih (i + 1) hmap.2 hshape.2 (by simpa [presentMsgsAux, hr] using hkids)
      | u32 =>
        simp only [isInitFields, hr, presentMsgsAux, List.nil_append]
        exact ih (i + 1) hmap.2 hshape.2 (by simpa [presentMsgsAux, hr] using hkids)
      | u64 =>
        simp only [isInitFields, hr, presentMsgsAux, List.nil_append]
        exact ih (i + 1) hmap.2 hshape.2 (by simpa [presentMsgsAux, hr] using hkids)
      | f32 =>
        simp only [isInitFields, hr, presentMsgsAux, List.nil_append]
        exact ih (i + 1) hmap.2 hshape.2 (by simpa [presentMsgsAux, hr] using hkids)
      | f64 =>
        simp only [isInitFields, hr, presentMsgsAux, List.nil_append]
        exact ih (i + 1) hmap.2 hshape.2 (by simpa [presentMsgsAux, hr] using hkids)
      | boolTy =>
        simp only [isInitFields, hr, presentMsgsAux, List.nil_append]
        exact ih (i + 1) hmap.2 hshape.2 (by simpa [presentMsgsAux, hr] using hkids)
      | stringTy =>
        simp only [isInitFields, hr, presentMsgsAux, List.nil_append]
        exact ih (i + 1) hmap.2 hshape.2 (by simpa [presentMsgsAux, hr] using hkids)
      | vecU8 =>
        simp only [isInitFields, hr, presentMsgsAux, List.nil_append]
        exact ih (i + 1) hmap.2 hshape.2 (by simpa [presentMsgsAux, hr] using hkids)
      | enumTy ed =>
        simp only [isInitFields, hr, presentMsgsAux, List.nil_append]
        exact ih (i + 1) hmap.2 hshape.2 (by simpa [presentMsgsAux, hr] using hkids)
    | Repeated rtb =>
      rw [hr] at hmap hshape
      cases rtb with
      | messageTy md =>
        cases hcell : cells[i]? with
        | none => rw [hcell] at hshape; simp at hshape
        | some cell =>
          rw [hcell] at hshape
          cases cell with
          | Repeated t vs =>
            have hall : vs.all boxIsMsg = true := hshape.1
            have hrep := checkRepInit_msgBoxes ci vs hall
              (by intro c hc; exact hkids c (by simp [presentMsgsAux, hr, hcell, hc]))
            by_cases hrb : (msgBoxes vs).all (fun c => decide (ci c = .ok true)) = true
            · rw [hrb] at hrep
              simp only [isInitFields, hr, hcell, hrep, presentMsgsAux, List.all_append]
              rw [ih (i + 1) hmap.2 hshape.2
                (by intro c' hc'; exact hkids c' (by simp [presentMsgsAux, hr, hcell, hc']))]
              simp [hrb]
            · have hrb' : (msgBoxes vs).all (fun c => decide (ci c = .ok true)) = false := by
                simpa using hrb
              rw [hrb'] at hrep
              simp [isInitFields, hr, hcell, hrep, presentMsgsAux, List.all_append, hrb']
          | Singular t v => simp at hshape
          | MapCell k v => simp at hshape
      | i32 =>
        simp only [isInitFields, hr, presentMsgsAux, List.nil_append]
        exact ih (i + 1) hmap.2 hshape.2 (by simpa [presentMsgsAux, hr] using hkids)
      | i64 =>
        simp only [isInitFields, hr, presentMsgsAux, List.nil_append]
        exact ih (i + 1) hmap.2 hshape.2 (by simpa [presentMsgsAux, hr] using hkids)
      | u32 =>
        simp only [isInitFields, hr, presentMsgsAux, List.nil_append]
        exact ih (i + 1) hmap.2 hshape.2 (by simpa [presentMsgsAux, hr] using hkids)
      | u64 =>
        simp only [isInitFields, hr, presentMsgsAux, List.nil_append]
        exact ih (i + 1) hmap.2 hshape.2 (by simpa [presentMsgsAux, hr] using hkids)
      | f32 =>
        simp only [isInitFields, hr, presentMsgsAux, List.nil_append]
        exact ih (i + 1) hmap.2 hshape.2 (by simpa [presentMsgsAux, hr] using hkids)
      | f64 =>
        simp only [isInitFields, hr, presentMsgsAux, List.nil_append]
        exact ih (i + 1) hmap.2 hshape.2 (by simpa [presentMsgsAux, hr] using hkids)
      | boolTy =>
        simp only [isInitFields, hr, presentMsgsAux, List.nil_append]
        exact ih (i + 1) hmap.2 hshape.2 (by simpa [presentMsgsAux, hr] using hkids)
      | stringTy =>
        simp only [isInitFields, hr, presentMsgsAux, List.nil_append]
        exact ih (i + 1) hmap.2 hshape.2 (by simpa [presentMsgsAux, hr] using hkids)
      | vecU8 =>
        simp only [isInitFields, hr, presentMsgsAux, List.nil_append]
        exact ih (i + 1) hmap.2 hshape.2 (by simpa [presentMsgsAux, hr] using hkids)
      | enumTy ed =>
        simp only [isInitFields, hr, presentMsgsAux, List.nil_append]
        exact ih (i + 1) hmap.2 hshape.2 (by simpa [presentMsgsAux, hr] using hkids)

/-- Claim C8, counterexample: on a message whose descriptor has a map field,
`is_initialized` PANICS (`unimplemented!`, source lines 293-295) — map
fields do fail the call, they are not silently unchecked. -/
theorem claimC8_counterexample : isInitialized (newInstance mapFieldD) = .panicked := rfl

/-- Claim C8, amended: for a message whose descriptor has no map fields,
whose message-typed cells are well-shaped, and whose present submessages'
own checks return a value, `is_initialized` returns true iff every present
message value — the value of every set singular message field and every
element of every repeated message field — answers true to
`is_initialized_dyn`; a map field in the descriptor instead makes the whole
call panic. -/
theorem claimC8_theorem (f : Nat) (m : DynamicMessage)
    (hmap : noMapList (mdFields (descOf m)) = true)
    (hshape : shapeOkB m = true)
    (hkids : ∀ c ∈ presentMsgs m, (isInitF f c).isOk = true) :
    isInitF (f + 1) m = .ok ((presentMsgs m).all fun c => decide (isInitF f c = .ok true)) := by
  by_cases hfe : (fieldsOf m).isEmpty
  · simp [isInitF, hfe, noMapList_lazy _ hmap, presentMsgs]
  · have hsc : shapeCells (fieldsOf m) (mdFields (descOf m)) 0 = true := by
      simpa [shapeOkB, hfe] using hshape
    have hk : ∀ c ∈ presentMsgsAux (fieldsOf m) (mdFields (descOf m)) 0,
        (isInitF f c).isOk = true := by
      simpa [presentMsgs, hfe] using hkids
    simp only [isInitF, hfe, if_false, presentMsgs]
    rw [isInitFields_eq (isInitF f) (fieldsOf m) (mdFields (descOf m)) 0 hmap hsc hk]
    simp [hfe]

/-- Claim C8, witness: a message with one set singular message field whose
child (the empty message) is initialized. -/
theorem claimC8_witness :
    isInitF 2 (DynamicMessage.mk singMsgD
        [.Singular (.messageTy emptyD) (some (.messageV (.mk emptyD [] [] 0)))] [] 0) =
      .ok ((presentMsgs (DynamicMessage.mk singMsgD
        [.Singular (.messageTy emptyD) (some (.messageV (.mk emptyD [] [] 0)))] [] 0)).all
          fun c => decide (isInitF 1 c = .ok true)) :=
  claimC8_theorem 1 _ (by decide) (by decide) (by decide)

/-! ### Claim C4 — repeated scalar wire-type dispatch -/

/-- Reinterpreting the 32-bit two's-complement pattern of an `i32`-ranged
integer as an `i32` gives the integer back. -/
theorem toI32_bits32 (n : Int) (hlo : -(2 ^ 31) ≤ n) (hhi : n < 2 ^ 31) :
    toI32 (bits32 n) = n := by
  simp only [toI32, bits32]
  split <;> omega

/-- A little-endian block has exactly its declared width. -/
theorem leEnc_length (k : Nat) : ∀ v, (leEnc k v).length = k := by
  induction k with
  | zero => intro v; rfl
  | succ k ih => intro v; simp [leEnc, ih]

/-- The runtime type the descriptor pairs with each packable scalar proto
type. -/
def rtbOf : PType → RuntimeTypeBox
  | .tDouble => .f64
  | .tFloat => .f32
  | .tInt64 => .i64
  | .tUint64 => .u64
  | .tInt32 => .i32
  | .tFixed64 => .u64
  | .tFixed32 => .u32
  | .tBool => .boolTy
  | .tSfixed32 => .i32
  | .tSfixed64 => .i64
  | .tSint32 => .i32
  | .tSint64 => .i64
  | .tUint32 => .u32
  | _ => .u32

/-- Well-typed, in-range element of a packable scalar type. -/
def goodElem : PType → ReflectValueBox → Bool
  | .tDouble, .f64V v => decide (v < 2 ^ 64)
  | .tFloat, .f32V v => decide (v < 2 ^ 32)
  | .tInt64, .i64V v => decide (-(2 ^ 63) ≤ v ∧ v < 2 ^ 63)
  | .tUint64, .u64V v => decide (v < 2 ^ 64)
  | .tInt32, .i32V v => decide (-(2 ^ 31) ≤ v ∧ v < 2 ^ 31)
  | .tFixed64, .u64V v => decide (v < 2 ^ 64)
  | .tFixed32, .u32V v => decide (v < 2 ^ 32)
  | .tBool, .boolV _ => true
  | .tSfixed32, .i32V v => decide (-(2 ^ 31) ≤ v ∧ v < 2 ^ 31)
  | .tSfixed64, .i64V v => decide (-(2 ^ 63) ≤ v ∧ v < 2 ^ 63)
  | .tSint32, .i32V v => decide (-(2 ^ 31) ≤ v ∧ v < 2 ^ 31)
  | .tSint64, .i64V v => decide (-(2 ^ 63) ≤ v ∧ v < 2 ^ 63)
  | .tUint32, .u32V v => decide (v < 2 ^ 32)
  | _, _ => false

/-- Canonical wire encoding of one element of a packable scalar type
(mirrors the per-type writers). -/
def encElem : PType → ReflectValueBox → List Nat
  | .tDouble, .f64V v => leEnc 8 v
  | .tFloat, .f32V v => leEnc 4 v
  | .tInt64, .i64V v => varintEnc (bits64 v)
  | .tUint64, .u64V v => varintEnc v
  | .tInt32, .i32V v => varintEnc (bits64 v)
  | .tFixed64, .u64V v => leEnc 8 v
  | .tFixed32, .u32V v => leEnc 4 v
  | .tBool, .boolV b => varintEnc (if b then 1 else 0)
  | .tSfixed32, .i32V v => leEnc 4 (bits32 v)
  | .tSfixed64, .i64V v => leEnc 8 (bits64 v)
  | .tSint32, .i32V v => varintEnc (zigzag32 v)
  | .tSint64, .i64V v => varintEnc (zigzag64 v)
  | .tUint32, .u32V v => varintEnc v
  | _, _ => []

/-- Concatenated encodings of a list of elements — the payload of a packed
record. -/
def encCat (pt : PType) : List ReflectValueBox → List Nat
  | [] => []
  | b :: bs => encElem pt b ++ encCat pt bs

/-- The unpacked encoding of a repeated field with number 1: one tag (with
the element wire type) and one payload per element. -/
def unpackedEnc (pt : PType) (ewt : WireType) : List ReflectValueBox → List Nat
  | [] => []
  | b :: bs => tagEnc 1 ewt ++ (encElem pt b ++ unpackedEnc pt ewt bs)

/-- The packed encoding of a repeated field with number 1: one
length-delimited tag, the payload length, the concatenated payloads. -/
def packedEnc (pt : PType) (vs : List ReflectValueBox) : List Nat :=
  tagEnc 1 .lengthDelimited ++ (varintEnc (encCat pt vs).length ++ encCat pt vs)

/-- A proto3 message with one repeated field of the given scalar type,
number 1. -/
def repDesc (pt : PType) : MessageDescriptor :=
  .mk "proto3" [.mk 1 pt (.Repeated (rtbOf pt)) none]

/-- The scalar readers invert the canonical element encodings. -/
theorem readScalar_encElem (pt : PType) (b : ReflectValueBox) (r : List Nat)
    (hg : goodElem pt b = true) :
    readScalar pt (encElem pt b ++ r) = some (b, r) := by
  cases pt <;> cases b
  case tDouble.f64V v =>
    simp only [goodElem, decide_eq_true_eq] at hg
    simp only [encElem, readScalar]
    rw [readLE_enc 8 v r hg]; rfl
  case tFloat.f32V v =>
    simp only [goodElem, decide_eq_true_eq] at hg
    simp only [encElem, readScalar]
    rw [readLE_enc 4 v r hg]; rfl
  case tInt64.i64V v =>
    simp only [goodElem, decide_eq_true_eq] at hg
    simp only [encElem, readScalar]
    rw [readVarint64_enc _ r (bits64_lt v)]
    simp [toI64_bits64 v hg.1 hg.2]
  case tUint64.u64V v =>
    simp only [goodElem, decide_eq_true_eq] at hg
    simp only [encElem, readScalar]
    rw [readVarint64_enc v r hg]; rfl
  case tInt32.i32V v =>
    simp only [goodElem, decide_eq_true_eq] at hg
    simp only [encElem, readScalar]
    rw [readVarint64_enc _ r (bits64_lt v)]
    simp [toI32_bits64 v hg.1 hg.2]
  case tFixed64.u64V v =>
    simp only [goodElem, decide_eq_true_eq] at hg
    simp only [encElem, readScalar]
    rw [readLE_enc 8 v r hg]; rfl
  case tFixed32.u32V v =>
    simp only [goodElem, decide_eq_true_eq] at hg
    simp only [encElem, readScalar]
    rw [readLE_enc 4 v r hg]; rfl
  case tBool.boolV bv =>
    simp only [encElem, readScalar]
    cases bv
    · rw [show (if (false = true) then 1 else 0) = 0 from rfl,
        readVarint32_enc 0 r (by norm_num)]
      rfl
    · rw [show (if (true = true) then 1 else 0) = 1 from rfl,
        readVarint32_enc 1 r (by norm_num)]
      rfl
  case tSfixed32.i32V v =>
    simp only [goodElem, decide_eq_true_eq] at hg
    simp only [encElem, readScalar]
    rw [readLE_enc 4 _ r (bits32_lt v)]
    simp [toI32_bits32 v hg.1 hg.2]
  case tSfixed64.i64V v =>
    simp only [goodElem, decide_eq_true_eq] at hg
    simp only [encElem, readScalar]
    rw [readLE_enc 8 _ r (bits64_lt v)]
    simp [toI64_bits64 v hg.1 hg.2]
  case tSint32.i32V v =>
    simp only [goodElem, decide_eq_true_eq] at hg
    simp only [encElem, readScalar]
    obtain ⟨hz, hlt⟩ := unzigzag_zigzag32 v hg.1 hg.2
    rw [readVarint32_enc _ r hlt]
    simp [hz]
  case tSint64.i64V v =>
    simp only [goodElem, decide_eq_true_eq] at hg
    simp only [encElem, readScalar]
    obtain ⟨hz, hlt⟩ := unzigzag_zigzag64 v hg.1 hg.2
    rw [readVarint64_enc _ r hlt]
    simp [hz]
  case tUint32.u32V v =>
    simp only [goodElem, decide_eq_true_eq] at hg
    simp only [encElem, readScalar]
    rw [readVarint32_enc v r hg]; rfl
  all_goals simp [goodElem] at hg

/-- A canonical element encoding is never empty (for a packable type). -/
theorem encElem_length_pos (pt : PType) (b : ReflectValueBox)
    (hg : goodElem pt b = true) : 1 ≤ (encElem pt b).length := by
  cases pt <;> cases b
  case tDouble.f64V v => norm_num [encElem, leEnc_length]
  case tFloat.f32V v => norm_num [encElem, leEnc_length]
  case tInt64.i64V v => exact varintEnc_length_pos _
  case tUint64.u64V v => exact varintEnc_length_pos _
  case tInt32.i32V v => exact varintEnc_length_pos _
  case tFixed64.u64V v => norm_num [encElem, leEnc_length]
  case tFixed32.u32V v => norm_num [encElem, leEnc_length]
  case tBool.boolV bv => exact varintEnc_length_pos _
  case tSfixed32.i32V v => norm_num [encElem, leEnc_length]
  case tSfixed64.i64V v => norm_num [encElem, leEnc_length]
  case tSint32.i32V v => exact varintEnc_length_pos _
  case tSint64.i64V v => exact varintEnc_length_pos _
  case tUint32.u32V v => exact varintEnc_length_pos _
  all_goals simp [goodElem] at hg

/-- `scalarWire` never answers the length-delimited wire type. -/
theorem scalarWire_ne_ld (pt : PType) (ewt : WireType)
    (h : scalarWire pt = some ewt) : ewt ≠ .lengthDelimited := by
  cases pt <;> simp [scalarWire] at h <;> subst h <;> simp

/-- One step of the packed element loop on a non-empty region. -/
theorem packElemsGo_cons (rd : List Nat → Option (ReflectValueBox × List Nat))
    (f : Nat) (bs : List Nat) (h : bs ≠ []) :
    packElemsGo rd (f + 1) bs =
      match rd bs with
      | none => none
      | some (b, bs') =>
        match packElemsGo rd f bs' with
        | some rest => some (b :: rest)
        | none => none := by
  cases bs with
  | nil => exact absurd rfl h
  | cons x xs => rfl

/-- The packed element loop decodes a concatenation of canonical encodings
back to the element list. -/
theorem packElemsGo_enc (pt : PType) :
    ∀ (vs : List ReflectValueBox) (fuel : Nat),
      (∀ b ∈ vs, goodElem pt b = true) →
      (encCat pt vs).length ≤ fuel →
      packElemsGo (readScalar pt) fuel (encCat pt vs) = some vs := by
  intro vs
  induction vs with
  | nil =>
    intro fuel _ _
    cases fuel <;> rfl
  | cons b bs ih =>
    intro fuel hg hlen
    have hgb : goodElem pt b = true := hg b (by simp)
    have hpos : 1 ≤ (encElem pt b).length := encElem_length_pos pt b hgb
    simp only [encCat, List.length_append] at hlen
    cases fuel with
    | zero => omega
    | succ f =>
      have hne : encCat pt (b :: bs) ≠ [] := by
        have : 1 ≤ (encCat pt (b :: bs)).length := by
          simp only [encCat, List.length_append]
          omega
        intro hc
        rw [hc] at this
        simp at this
      rw [packElemsGo_cons _ f _ hne,
        show encCat pt (b :: bs) = encElem pt b ++ encCat pt bs from rfl,
        readScalar_encElem pt b _ hgb]
      dsimp only
      rw [ih f (fun b' hb' => hg b' (by simp [hb'])) (by omega)]

/-- The packed reader decodes a canonical packed record. -/
theorem readPacked_enc (pt : PType) (vs : List ReflectValueBox) (rest : List Nat)
    (hg : ∀ b ∈ vs, goodElem pt b = true)
    (hlen : (encCat pt vs).length < 2 ^ 64) :
    readPacked pt (varintEnc (encCat pt vs).length ++ (encCat pt vs ++ rest)) =
      some (vs, rest) := by
  unfold readPacked
  rw [readVarint64_enc _ _ hlen]
  have htake : (encCat pt vs ++ rest).take (encCat pt vs).length = encCat pt vs := by
    simp
  have hdrop : (encCat pt vs ++ rest).drop (encCat pt vs).length = rest := by
    simp
  simp only [List.length_append, htake, hdrop]
  rw [if_pos (by omega), packElemsGo_enc pt vs (encCat pt vs).length hg (le_refl _)]

/-- The unpacked encoding has at least one byte per element. -/
theorem unpackedEnc_length_ge (pt : PType) (ewt : WireType) :
    ∀ vs : List ReflectValueBox, vs.length ≤ (unpackedEnc pt ewt vs).length := by
  intro vs
  induction vs with
  | nil => simp [unpackedEnc]
  | cons b bs ih =>
    have := varintEnc_length_pos (8 * 1 + wtVal ewt)
    simp only [unpackedEnc, List.length_cons, List.length_append, tagEnc]
    omega

/-- Decoding an unpacked stream appends each element in order: the
tag loop, with enough fuel, turns `acc` into `acc ++ vs`. -/
theorem loopF_unpacked (pt : PType) (ewt : WireType) (hsw : scalarWire pt = some ewt)
    (t : RuntimeTypeBox) (d l : Nat) :
    ∀ (vs acc : List ReflectValueBox) (f : Nat),
      (∀ b ∈ vs, goodElem pt b = true) →
      vs.length + 1 ≤ f →
      loopF f (.mk (repDesc pt) [.Repeated t acc] [] 0) ⟨unpackedEnc pt ewt vs, d, l⟩ =
        .ok (.mk (repDesc pt) [.Repeated t (acc ++ vs)] [] 0) := by
  intro vs
  induction vs with
  | nil =>
    intro acc f _ hf
    cases f with
    | zero => omega
    | succ f' => simp [unpackedEnc, loopF_nil]
  | cons b bs ih =>
    intro acc f hg hf
    cases f with
    | zero => omega
    | succ f' =>
      have hgb : goodElem pt b = true := hg b (by simp)
      have hrt : readTag (unpackedEnc pt ewt (b :: bs)) =
          some ((1, ewt), encElem pt b ++ unpackedEnc pt ewt bs) := by
        simp only [unpackedEnc]
        exact readTag_small 1 ewt _ (by omega) (by omega)
      have hne : (unpackedEnc pt ewt (b :: bs)).isEmpty = false := readTag_isEmpty_false hrt
      rw [loopF]
      simp only [hne, Bool.false_eq_true, if_false, hrt]
      have hff : findFieldByNumber (descOf (DynamicMessage.mk (repDesc pt)
          [.Repeated t acc] [] 0)) 1 =
          some (0, .mk 1 pt (.Repeated (rtbOf pt)) none) := rfl
      rw [hff]
      simp only [fdRft, fdType]
      have hinit : initFields (DynamicMessage.mk (repDesc pt) [.Repeated t acc] [] 0) =
          DynamicMessage.mk (repDesc pt) [.Repeated t acc] [] 0 := rfl
      rw [hinit]
      simp only [fieldsOf, List.getElem?_cons_zero, hsw,
        readScalar_encElem pt b _ hgb, if_pos rfl]
      have hsc : setCell (DynamicMessage.mk (repDesc pt) [.Repeated t acc] [] 0) 0
          (.Repeated t (acc ++ [b])) =
          DynamicMessage.mk (repDesc pt) [.Repeated t (acc ++ [b])] [] 0 := rfl
      rw [hsc, ih (acc ++ [b]) f' (fun b' hb' => hg b' (by simp [hb'])) (by simpa using hf)]
      simp

/-- Decoding a packed stream extends the sequence with every decoded
element in order. -/
theorem loopF_packed (pt : PType) (ewt : WireType) (hsw : scalarWire pt = some ewt)
    (t : RuntimeTypeBox) (d l : Nat) (vs acc : List ReflectValueBox) (f : Nat)
    (hg : ∀ b ∈ vs, goodElem pt b = true)
    (hlen : (encCat pt vs).length < 2 ^ 64)
    (hf : 2 ≤ f) :
    loopF f (.mk (repDesc pt) [.Repeated t acc] [] 0) ⟨packedEnc pt vs, d, l⟩ =
      .ok (.mk (repDesc pt) [.Repeated t (acc ++ vs)] [] 0) := by
  cases f with
  | zero => omega
  | succ f' =>
    have hrt : readTag (packedEnc pt vs) =
        some ((1, WireType.lengthDelimited),
          varintEnc (encCat pt vs).length ++ encCat pt vs) := by
      simp only [packedEnc]
      exact readTag_small 1 .lengthDelimited _ (by omega) (by omega)
    have hne : (packedEnc pt vs).isEmpty = false := readTag_isEmpty_false hrt
    rw [loopF]
    simp only [hne, Bool.false_eq_true, if_false, hrt]
    have hff : findFieldByNumber (descOf (DynamicMessage.mk (repDesc pt)
        [.Repeated t acc] [] 0)) 1 =
        some (0, .mk 1 pt (.Repeated (rtbOf pt)) none) := rfl
    rw [hff]
    simp only [fdRft, fdType]
    have hinit : initFields (DynamicMessage.mk (repDesc pt) [.Repeated t acc] [] 0) =
        DynamicMessage.mk (repDesc pt) [.Repeated t acc] [] 0 := rfl
    rw [hinit]
    have hneq : (WireType.lengthDelimited = ewt) = False := by
      simp [Ne.symm (scalarWire_ne_ld pt ewt hsw)]
    have hrp : readPacked pt (varintEnc (encCat pt vs).length ++ encCat pt vs) =
        some (vs, []) := by
      have := readPacked_enc pt vs [] hg hlen
      simpa using this
    simp only [fieldsOf, List.getElem?_cons_zero, hsw, hneq, if_false, if_pos rfl, hrp]
    have hsc : setCell (DynamicMessage.mk (repDesc pt) [.Repeated t acc] [] 0) 0
        (.Repeated t (acc ++ vs)) =
        DynamicMessage.mk (repDesc pt) [.Repeated t (acc ++ vs)] [] 0 := rfl
    rw [hsc]
    cases f' with
    | zero => omega
    | succ f'' => exact loopF_nil f'' _ d l

/-- Claim C4: for every packable repeated scalar field, the decoder
dispatches on the observed wire type — the scalar's element wire type reads
one element and appends it, a length-delimited record runs the packed
reader and appends every decoded element in order, and any other wire type
aborts with `unexpected wire type`.  Hence the packed and the unpacked
encoding of the same elements decode to the same repeated sequence. -/
theorem claimC4_theorem (pt : PType) (ewt : WireType) (hsw : scalarWire pt = some ewt)
    (vs : List ReflectValueBox) (hg : ∀ b ∈ vs, goodElem pt b = true)
    (hlen : (encCat pt vs).length < 2 ^ 64) :
    (mergeFrom (newInstance (repDesc pt)) ⟨unpackedEnc pt ewt vs, 0, 100⟩ =
       .ok (.mk (repDesc pt) [.Repeated (rtbOf pt) vs] [] 0)) ∧
    (mergeFrom (newInstance (repDesc pt)) ⟨packedEnc pt vs, 0, 100⟩ =
       .ok (.mk (repDesc pt) [.Repeated (rtbOf pt) vs] [] 0)) ∧
    (∀ (wt : WireType) (junk : List Nat), wt ≠ ewt → wt ≠ .lengthDelimited →
       mergeFrom (newInstance (repDesc pt)) ⟨tagEnc 1 wt ++ junk, 0, 100⟩ =
         .err (.unexpectedWireType wt)) := by
  have hsd : setFieldsDefault (newInstance (repDesc pt)) =
      some (.mk (repDesc pt) [.Repeated (rtbOf pt) []] [] 0) := rfl
  refine ⟨?_, ?_, ?_⟩
  · unfold mergeFrom
    rw [hsd]
    have hb := unpackedEnc_length_ge pt ewt vs
    have := loopF_unpacked pt ewt hsw (rtbOf pt) 0 100 vs []
      (2 * (unpackedEnc pt ewt vs).length + 2) hg (by omega)
    simpa using this
  · unfold mergeFrom
    rw [hsd]
    have := loopF_packed pt ewt hsw (rtbOf pt) 0 100 vs []
      (2 * (packedEnc pt vs).length + 2) hg hlen (by omega)
    simpa using this
  · intro wt junk hwt hld
    unfold mergeFrom
    rw [hsd]
    have hrt : readTag (tagEnc 1 wt ++ junk) = some ((1, wt), junk) :=
      readTag_small 1 wt junk (by omega) (by omega)
    have hne : (tagEnc 1 wt ++ junk).isEmpty = false := readTag_isEmpty_false hrt
    show loopF (2 * (tagEnc 1 wt ++ junk).length + 1 + 1) _ _ = _
    rw [loopF]
    simp only [hne, Bool.false_eq_true, if_false, hrt]
    have hff : findFieldByNumber (descOf (DynamicMessage.mk (repDesc pt)
        [.Repeated (rtbOf pt) []] [] 0)) 1 =
        some (0, .mk 1 pt (.Repeated (rtbOf pt)) none) := rfl
    rw [hff]
    simp only [fdRft, fdType]
    rw [show initFields (DynamicMessage.mk (repDesc pt)
      [.Repeated (rtbOf pt) []] [] 0) =
      DynamicMessage.mk (repDesc pt) [.Repeated (rtbOf pt) []] [] 0 from rfl]
    simp [fieldsOf, hsw, hwt, hld]

/-- Claim C4, witness at `int32` with elements `[1, -1]`: both encodings
decode to the same two-element sequence, and a fixed32-typed tag is
rejected. -/
theorem claimC4_witness :
    (mergeFrom (newInstance (repDesc .tInt32))
        ⟨unpackedEnc .tInt32 .varint [.i32V 1, .i32V (-1)], 0, 100⟩ =
      .ok (.mk (repDesc .tInt32) [.Repeated (rtbOf .tInt32) [.i32V 1, .i32V (-1)]] [] 0)) ∧
    (mergeFrom (newInstance (repDesc .tInt32))
        ⟨packedEnc .tInt32 [.i32V 1, .i32V (-1)], 0, 100⟩ =
      .ok (.mk (repDesc .tInt32) [.Repeated (rtbOf .tInt32) [.i32V 1, .i32V (-1)]] [] 0)) ∧
    (mergeFrom (newInstance (repDesc .tInt32)) ⟨tagEnc 1 .fixed32 ++ [0, 0, 0, 0], 0, 100⟩ =
      .err (.unexpectedWireType .fixed32)) :=
  ⟨(claimC4_theorem .tInt32 .varint rfl [.i32V 1, .i32V (-1)] (by decide) (by decide)).1,
   (claimC4_theorem .tInt32 .varint rfl [.i32V 1, .i32V (-1)] (by decide) (by decide)).2.1,
   (claimC4_theorem .tInt32 .varint rfl [.i32V 1, .i32V (-1)] (by decide) (by decide)).2.2
     .fixed32 [0, 0, 0, 0] (by decide) (by decide)⟩

/-! ### Claim C3 — size-then-write consistency -/

/-- Adding the three wire-type bits never changes a varint's length. -/
theorem varintEncAux_len (f : Nat) :
    ∀ (a w : Nat), w < 8 →
      (varintEncAux f (8 * a + w)).length = (varintEncAux f (8 * a)).length := by
  induction f with
  | zero => intro a w _; rfl
  | succ f ih =>
    intro a w hw
    by_cases h : 8 * a + w < 128
    · have h2 : 8 * a < 128 := by omega
      simp [varintEncAux, h, h2]
    · have h2 : ¬(8 * a < 128) := by omega
      have hq : (8 * a + w) / 128 = 8 * a / 128 := by omega
      simp only [varintEncAux, if_neg h, if_neg h2, List.length_cons]
      rw [hq]

/-- A tag's bytes are exactly `tag_size` long, whatever the wire type. -/
theorem tagEnc_length (num : Nat) (wt : WireType) :
    (tagEnc num wt).length = tagSize num := by
  have hw : wtVal wt < 8 := by cases wt <;> simp [wtVal]
  unfold tagEnc tagSize varintLen varintEnc
  exact varintEncAux_len 9 num (wtVal wt) hw

/-- Inverting `CRes.map` on a success. -/
theorem CRes.map_eq_ok {α β : Type} {f : α → β} {x : CRes α} {y : β}
    (h : x.map f = .ok y) : ∃ a, x = .ok a ∧ f a = y := by
  cases x with
  | ok a => exact ⟨a, rfl, by simpa [CRes.map] using h⟩
  | panicked => simp [CRes.map] at h
  | fuelOut => simp [CRes.map] at h

/-- Combining a head chunk and a tail outcome on the write side matches
combining their sizes on the size side. -/
theorem CRes.bind2_len (x xs : CRes (List Nat)) :
    (match x with
     | .ok bs =>
       match xs with
       | .ok rest => CRes.ok (bs ++ rest)
       | .panicked => CRes.panicked
       | .fuelOut => CRes.fuelOut
     | .panicked => CRes.panicked
     | .fuelOut => CRes.fuelOut).map List.length =
    (match x.map List.length with
     | .ok n =>
       match xs.map List.length with
       | .ok ns => CRes.ok (n + ns)
       | .panicked => CRes.panicked
       | .fuelOut => CRes.fuelOut
     | .panicked => CRes.panicked
     | .fuelOut => CRes.fuelOut) := by
  cases x <;> cases xs <;> simp [CRes.map]

/-- The bytes a singular value writes are exactly as many as the sizer
charges for it, for every proto type and every value box — panics and fuel
exhaustion agree on the two sides as well. -/
theorem singularWriteTo_len (cs : DynamicMessage → CRes Nat)
    (wr : DynamicMessage → CRes (List Nat))
    (hrel : ∀ m, (wr m).map List.length = cs m)
    (pt : PType) (rtb : RuntimeTypeBox) (num : Nat) (box : ReflectValueBox) :
    (singularWriteTo cs wr pt rtb num box).map List.length =
      computeSingularSize cs pt rtb num box := by
  cases pt
  case tMessage =>
    cases rtb <;> cases box <;> try rfl
    case messageTy.messageV md child =>
      simp only [singularWriteTo, computeSingularSize]
      cases hc : cs child with
      | ok n =>
        have hch := hrel child
        rw [hc] at hch
        obtain ⟨bs, hbs, hlen⟩ := CRes.map_eq_ok hch
        rw [hbs]
        dsimp only
        simp only [CRes.map, List.length_append, tagEnc_length, varintLen, hlen]
      | panicked => rfl
      | fuelOut => rfl
  case tEnum =>
    cases rtb <;> cases box <;> try rfl
    case enumTy.enumV ed' ed idx =>
      simp [singularWriteTo, computeSingularSize, CRes.map, List.length_append,
        tagEnc_length, varintLen]
  all_goals cases box <;>
    simp [singularWriteTo, computeSingularSize, CRes.map, List.length_append,
      tagEnc_length, varintLen, leEnc_length, Nat.add_assoc]

/-- Element-by-element version of `singularWriteTo_len` for repeated
fields. -/
theorem writeRepeated_len (cs : DynamicMessage → CRes Nat)
    (wr : DynamicMessage → CRes (List Nat))
    (hrel : ∀ m, (wr m).map List.length = cs m)
    (pt : PType) (rtb : RuntimeTypeBox) (num : Nat) :
    ∀ vs : List ReflectValueBox,
      (writeRepeated cs wr pt rtb num vs).map List.length =
        sizeRepeated cs pt rtb num vs := by
  intro vs
  induction vs with
  | nil => rfl
  | cons v rest ih =>
    simp only [writeRepeated, sizeRepeated]
    refine (CRes.bind2_len _ _).trans ?_
    rw [singularWriteTo_len cs wr hrel pt rtb num v, ih]

/-- The encoder's field walk writes exactly as many bytes as the sizer's
field walk charges, field by field. -/
theorem writeFields_len (cs : DynamicMessage → CRes Nat)
    (wr : DynamicMessage → CRes (List Nat))
    (hrel : ∀ m, (wr m).map List.length = cs m)
    (cells : List DynamicFieldValue) :
    ∀ (fds : List FieldDescriptor) (i : Nat),
      (writeFields cs wr cells fds i).map List.length = sizeFields cs cells fds i := by
  intro fds
  induction fds with
  | nil => intro i; rfl
  | cons fd rest ih =>
    intro i
    simp only [writeFields, sizeFields]
    cases hr : fdRft fd with
    | Map k v => rfl
    | Singular rtb =>
      cases hcell : cells[i]? with
      | none => rfl
      | some cell =>
        cases cell with
        | Singular t v =>
          cases v with
          | none => exact ih (i + 1)
          | some box =>
            by_cases hz : isNonZero box = true
            · simp only [hz, if_true]
              refine (CRes.bind2_len _ _).trans ?_
              rw [singularWriteTo_len cs wr hrel (fdType fd) rtb (fdNumber fd) box,
                ih (i + 1)]
            · have hz' : isNonZero box = false := by simpa using hz
              simp only [hz', Bool.false_eq_true, if_false]
              exact ih (i + 1)
        | Repeated t vs => rfl
        | MapCell k v => rfl
    | Repeated rtb =>
      cases hcell : cells[i]? with
      | none => rfl
      | some cell =>
        cases cell with
        | Singular t v => rfl
        | MapCell k v => rfl
        | Repeated t vs =>
          refine (CRes.bind2_len _ _).trans ?_
          rw [writeRepeated_len cs wr hrel (fdType fd) rtb (fdNumber fd) vs,
            ih (i + 1)]

/-- At every fuel, the encoder writes exactly as many bytes as the sizer
computes (they panic and run out of fuel in exactly the same cases). -/
theorem wrF_len : ∀ (f : Nat) (m : DynamicMessage),
    (wrF f m).map List.length = csF f m := by
  intro f
  induction f with
  | zero => intro m; rfl
  | succ f ih =>
    intro m
    simp only [wrF, csF]
    by_cases hfe : (fieldsOf m).isEmpty
    · simp only [hfe, if_true]
      by_cases hl : lazyFieldsPanic (mdFields (descOf m)) <;> simp [hl, CRes.map]
    · simp only [hfe, Bool.false_eq_true, if_false]
      exact writeFields_len (csF f) (wrF f) ih (fieldsOf m) (mdFields (descOf m)) 0

/-- Claim C3: for every dynamic message without map fields, the number of
bytes `write_to_with_cached_sizes` writes equals `compute_size` — both walk
the fields in descriptor order, suppress unset or zero singular values, and
emit/measure every repeated element as its own tag + payload pair.  (The two
sides in fact also agree on every panic.) -/
theorem claimC3_theorem (m : DynamicMessage)
    (_hmap : noMapList (mdFields (descOf m)) = true) :
    (writeTo m).map List.length = computeSize m :=
  wrF_len (msgWeight m) m

/-- Claim C3, witness: the spec's Widget scenario — `id = 150`,
`name = "abc"` — writes eight bytes and sizes to eight. -/
theorem claimC3_witness :
    ((writeTo (DynamicMessage.mk
        (.mk "proto3" [.mk 1 .tInt32 (.Singular .i32) none,
                       .mk 2 .tString (.Singular .stringTy) none])
        [.Singular .i32 (some (.i32V 150)),
         .Singular .stringTy (some (.stringV [97, 98, 99]))] [] 0)).map List.length =
      computeSize (DynamicMessage.mk
        (.mk "proto3" [.mk 1 .tInt32 (.Singular .i32) none,
                       .mk 2 .tString (.Singular .stringTy) none])
        [.Singular .i32 (some (.i32V 150)),
         .Singular .stringTy (some (.stringV [97, 98, 99]))] [] 0)) ∧
    computeSize (DynamicMessage.mk
        (.mk "proto3" [.mk 1 .tInt32 (.Singular .i32) none,
                       .mk 2 .tString (.Singular .stringTy) none])
        [.Singular .i32 (some (.i32V 150)),
         .Singular .stringTy (some (.stringV [97, 98, 99]))] [] 0) = .ok 8 :=
  ⟨claimC3_theorem _ rfl, rfl⟩

end DynProto
